import Mathlib

/-!
# Verification of the context/handle layer of libkdumpfile
  (src/kdumpfile/context.c)

Shallow embedding of the shared-state lifecycle and handle-cloning
subsystem: `alloc_ctx`, `alloc_shared`, `shared_free`, `shared_incref`,
`shared_decref`, `kdump_new`, `kdump_clone`, `per_ctx_alloc`,
`per_ctx_free`, `kdump_strerror`.

Memory allocation is modelled by an explicit allocator state (`Heap`):
a monotone fresh-address counter, an oracle (`plan`) deciding whether the
k-th fallible primitive (malloc/calloc, `rwlock_init`, collaborator
constructors) succeeds, and a map from addresses to the size of the live
block at that address (`none` = not allocated).  `free` unmaps a block;
it does not touch any pointer variable, exactly as in C.

`PER_CTX_SLOTS` is a compile-time constant defined in the private header
(which is not part of the sources here); the model takes the slot count
as a parameter: the slot-size table is a `List Nat` of that length and
each context's `data` array is a `List (Option Nat)` of the same length
(`none` = NULL pointer).
-/

/-- Allocator state: fresh-address counter, count of fallible primitive
calls made so far, success oracle, and the live blocks (address ↦ size). -/
structure Heap where
  next : Nat
  cnt : Nat
  plan : Nat → Bool
  blocks : Nat → Option Nat

/-- Well-formedness: no block lives at or above the fresh-address counter. -/
def Heap.wf (h : Heap) : Prop := ∀ p, h.next ≤ p → h.blocks p = none

/-- Heap after a successful allocation of `sz` bytes: the block lives at
the old `next`. -/
def Heap.bump (h : Heap) (sz : Nat) : Heap where
  next := h.next + 1
  cnt := h.cnt + 1
  plan := h.plan
  blocks := fun q => if q = h.next then some sz else h.blocks q

/-- Heap after a failed fallible primitive: only the oracle advances. -/
def Heap.skip (h : Heap) : Heap where
  next := h.next
  cnt := h.cnt + 1
  plan := h.plan
  blocks := h.blocks

/-- Model of `malloc(sz)` / `calloc`: consult the oracle; on success return a fresh
address now holding a live block of `sz` bytes. -/
def Heap.malloc (h : Heap) (sz : Nat) : Option Nat × Heap :=
  match h.plan h.cnt with
  | true => (some h.next, h.bump sz)
  | false => (none, h.skip)

/-- Model of `free(p)`: unmap the block at `p`. -/
def Heap.free (h : Heap) (p : Nat) : Heap where
  next := h.next
  cnt := h.cnt
  plan := h.plan
  blocks := fun q => if q = p then none else h.blocks q

/-- Model of `free` applied to a possibly-NULL pointer; `free(NULL)` is a no-op. -/
def Heap.freeOpt (h : Heap) : Option Nat → Heap
  | none => h
  | some p => h.free p

/-- A fallible non-allocating primitive (e.g. `rwlock_init`): consult and
advance the oracle. -/
def Heap.tryOp (h : Heap) : Bool × Heap :=
  (h.plan h.cnt, h.skip)

/-- Structure `kdump_ctx_t`: a context.  `self` is the address of the `calloc`-ed
context block (which also holds the error-channel buffer), `xlatctx` the
address of the private address-translation coordinate-system handle, and
`data` the per-context slot-pointer array (`none` = NULL). -/
structure kdump_ctx_t where
  self : Nat
  xlatctx : Nat
  data : List (Option Nat)
deriving DecidableEq

instance : Inhabited kdump_ctx_t := ⟨⟨0, 0, []⟩⟩

/-- Structure `struct kdump_shared`: reference count, per-slot size table
(`0` = free slot) and the list of attached contexts, head = most recently
attached (`list_add` prepends).  `self` is the address of the block. -/
structure kdump_shared where
  self : Nat
  refcnt : Nat
  per_ctx_size : List Nat
  ctxs : List kdump_ctx_t
deriving DecidableEq

/-- Attribute dictionary collaborator: an opaque refcounted block. -/
structure Dict where
  self : Nat
  refcnt : Nat
deriving DecidableEq

/-- Structure `struct kdump_xlat`: the address-translation domain, with its own
reference count and list of attached contexts (by context address). -/
structure kdump_xlat where
  self : Nat
  refcnt : Nat
  ctxs : List Nat
deriving DecidableEq

/-! ## Error codes (`kdump_status`) and `kdump_strerror`

The `kdump_status` enumeration lives in the public header which is not
among the sources; per the C enum convention its ten members are the
consecutive codes 0..9 in declaration order. -/

def KDUMP_OK : Nat := 0

def KDUMP_ERR_SYSTEM : Nat := 1

def KDUMP_ERR_NOTIMPL : Nat := 2

def KDUMP_ERR_NODATA : Nat := 3

def KDUMP_ERR_CORRUPT : Nat := 4

def KDUMP_ERR_INVALID : Nat := 5

def KDUMP_ERR_NOKEY : Nat := 6

def KDUMP_ERR_EOF : Nat := 7

def KDUMP_ERR_BUSY : Nat := 8

def KDUMP_ERR_ADDRXLAT : Nat := 9

/-- Function `kdump_strerror`: the `switch` over the status code. -/
def kdump_strerror (status : Nat) : String :=
  if status = KDUMP_OK then "Success"
  else if status = KDUMP_ERR_SYSTEM then "OS error"
  else if status = KDUMP_ERR_NOTIMPL then "Unimplemented feature"
  else if status = KDUMP_ERR_NODATA then "Data is not stored in the dump file"
  else if status = KDUMP_ERR_CORRUPT then "Corrupted file data"
  else if status = KDUMP_ERR_INVALID then "Invalid value"
  else if status = KDUMP_ERR_NOKEY then "No such attribute key"
  else if status = KDUMP_ERR_EOF then "Unexpected EOF"
  else if status = KDUMP_ERR_BUSY then "Too many pending requests"
  else if status = KDUMP_ERR_ADDRXLAT then "Address translation error"
  else "Unknown error"

/-! ## The per-context slot allocator -/

/-- Error conditions of `per_ctx_alloc` (reported through `errno` in C). -/
inductive AllocErr where
  | eagain
  | enomem
deriving DecidableEq

/-- The allocation loop of `per_ctx_alloc`
(`list_for_each_entry(ctx, &shared->ctx, list) ...`): walk the attached
contexts in list order, storing a fresh buffer into `ctx->data[slot]`.
If a `malloc` fails, the C code stores the NULL into the failing
context's entry and then walks `prev` links back to the list head,
freeing the buffer just given to each earlier context (their `data[slot]`
pointers are left in place); here each recursion level frees its own
buffer as the failure propagates outward, which performs the identical
frees in the identical order. -/
def allocLoop (sz slot : Nat) (h : Heap) : List kdump_ctx_t → Bool × List kdump_ctx_t × Heap
  | [] => (true, [], h)
  | c :: cs =>
    match h.malloc sz with
    | (some p, h') =>
      let c' : kdump_ctx_t := { c with data := c.data.set slot (some p) }
      match allocLoop sz slot h' cs with
      | (true, cs', h'') => (true, c' :: cs', h'')
      | (false, cs', h'') => (false, c' :: cs', h''.freeOpt (c'.data.getD slot none))
    | (none, h') => (false, { c with data := c.data.set slot none } :: cs, h')

/-- The slot-search loop of `per_ctx_alloc`
(`for (slot = 0; slot < PER_CTX_SLOTS; ++slot) if (!shared->per_ctx_size[slot]) break;`):
index of the first zero entry, `none` when every entry is nonzero. -/
def firstFreeSlot : List Nat → Option Nat
  | [] => none
  | sz :: rest => if sz = 0 then some 0 else (firstFreeSlot rest).map (fun i => i + 1)

/-- Function `per_ctx_alloc(shared, sz)`: find the first free slot (lowest index
whose table entry is 0); if none, fail with `EAGAIN`.  Otherwise record
`sz` in the table and allocate a buffer for every attached context; if
that fails, roll back the buffers, reset the table entry to 0 and fail
with `ENOMEM`. -/
def per_ctx_alloc (h : Heap) (s : kdump_shared) (sz : Nat) :
    Except AllocErr Nat × kdump_shared × Heap :=
  match firstFreeSlot s.per_ctx_size with
  | none => (Except.error AllocErr.eagain, s, h)
  | some slot =>
    match allocLoop sz slot h s.ctxs with
    | (true, ctxs', h') =>
      (Except.ok slot,
        { s with per_ctx_size := s.per_ctx_size.set slot sz, ctxs := ctxs' }, h')
    | (false, ctxs', h') =>
      (Except.error AllocErr.enomem,
        { s with per_ctx_size := (s.per_ctx_size.set slot sz).set slot 0,
                 ctxs := ctxs' }, h')

/-- Function `per_ctx_free(shared, slot)`: free `ctx->data[slot]` for every
attached context (the pointers themselves are not modified) and reset the
table entry to 0. -/
def per_ctx_free (h : Heap) (s : kdump_shared) (slot : Nat) : kdump_shared × Heap :=
  ({ s with per_ctx_size := s.per_ctx_size.set slot 0 },
   s.ctxs.foldl (fun hh c => hh.freeOpt (c.data.getD slot none)) h)

/-! ## Context and shared-state lifecycle -/

/-- Modelled from the spec: `init_addrxlat` (a collaborator from the
address-translation engine, not among the sources) creates a fresh,
independently refcounted translation coordinate-system handle, or fails.
Block sizes of opaque collaborator objects are irrelevant to the claims;
the model uses 1. -/
def init_addrxlat (h : Heap) : Option Nat × Heap := h.malloc 1

/-- Modelled from the spec: `addrxlat_ctx_decref` releases a translation
coordinate-system handle; everywhere this file calls it the handle's
reference count is 1 (it was created by `init_addrxlat` and never
shared), so the release frees the block. -/
def addrxlat_ctx_decref (h : Heap) (p : Nat) : Heap := h.free p

/-- Function `alloc_ctx`: `calloc` a zeroed context block (which embeds the
error-channel buffer of `ERRBUF` bytes) and create its private
translation coordinate-system handle; on `init_addrxlat` failure, clean
up the error channel and free the context block. -/
def alloc_ctx (h : Heap) (nslots : Nat) : Option kdump_ctx_t × Heap :=
  match h.malloc 1 with
  | (none, h') => (none, h')
  | (some self, h') =>
    match init_addrxlat h' with
    | (none, h'') => (none, h''.free self)
    | (some xc, h'') =>
      (some { self := self, xlatctx := xc, data := List.replicate nslots none }, h'')

/-- Function `alloc_shared`: `calloc` a zeroed shared block, initialize the empty
context list and the lock (`rwlock_init` may fail, in which case the
block is freed), and set the reference count to 1. -/
def alloc_shared (h : Heap) (nslots : Nat) : Option kdump_shared × Heap :=
  match h.malloc 1 with
  | (none, h') => (none, h')
  | (some self, h') =>
    match h'.tryOp with
    | (false, h'') => (none, h''.free self)
    | (true, h'') =>
      (some { self := self, refcnt := 1,
              per_ctx_size := List.replicate nslots 0, ctxs := [] }, h'')

/-- Function `shared_free`: clean up and free the shared info.  The shared objects
built by this subsystem are `calloc`-zeroed and never gain `ops`,
`arch_ops`, a cache or a file cache here, so the conditional collaborator
teardown calls are all skipped and the function frees the block. -/
def shared_free (h : Heap) (s : kdump_shared) : Heap := h.free s.self

/-- Modelled from the spec: `shared_incref_locked` (private header)
increments the reference count and returns the new count. -/
def shared_incref_locked (s : kdump_shared) : Nat × kdump_shared :=
  (s.refcnt + 1, { s with refcnt := s.refcnt + 1 })

/-- Modelled from the spec: `shared_decref_locked` (private header)
decrements the reference count; if it reaches zero the object is
destroyed (`shared_free`) and must not be used again (result `none`). -/
def shared_decref_locked (h : Heap) (s : kdump_shared) :
    Nat × Option kdump_shared × Heap :=
  match s.refcnt - 1 with
  | 0 => (0, none, shared_free h s)
  | r + 1 => (r + 1, some { s with refcnt := r + 1 }, h)

/-- Function `shared_incref`: take the lock, increment, unlock (locking is not
observable in the sequential embedding). -/
def shared_incref (s : kdump_shared) : Nat × kdump_shared := shared_incref_locked s

/-- Function `shared_decref`: take the lock, decrement, unlock unless the object
was destroyed. -/
def shared_decref (h : Heap) (s : kdump_shared) : Nat × Option kdump_shared × Heap :=
  shared_decref_locked h s

/-- Modelled from the spec: `attr_dict_new` (attribute-dictionary
collaborator, not among the sources) creates a fresh dictionary with
reference count 1 bound to the given shared object, or fails. -/
def attr_dict_new (h : Heap) : Option Dict × Heap :=
  match h.malloc 1 with
  | (none, h') => (none, h')
  | (some self, h') => (some { self := self, refcnt := 1 }, h')

/-- Modelled from the spec: `attr_dict_incref` increments the
dictionary's reference count. -/
def attr_dict_incref (d : Dict) : Dict := { d with refcnt := d.refcnt + 1 }

/-- Modelled from the spec: `attr_dict_decref` decrements the
dictionary's reference count, freeing it at zero. -/
def attr_dict_decref (h : Heap) (d : Dict) : Option Dict × Heap :=
  match d.refcnt - 1 with
  | 0 => (none, h.free d.self)
  | r + 1 => (some { d with refcnt := r + 1 }, h)

/-- Modelled from the spec: `xlat_new` (translation-domain collaborator,
not among the sources) creates a fresh address-translation domain with
reference count 1 and an empty context list, or fails. -/
def xlat_new (h : Heap) : Option kdump_xlat × Heap :=
  match h.malloc 1 with
  | (none, h') => (none, h')
  | (some self, h') => (some { self := self, refcnt := 1, ctxs := [] }, h')

/-- Modelled from the spec: `xlat_incref` increments the domain's
reference count. -/
def xlat_incref (x : kdump_xlat) : kdump_xlat := { x with refcnt := x.refcnt + 1 }

/-- Function `kdump_new`: build a context (`alloc_ctx`), a fresh shared object
(`alloc_shared`, attaching the context to its list), a fresh attribute
dictionary and a fresh translation domain (attaching the context to its
list), then seed the default cache-size attribute (a collaborator side
effect with no footprint in this model).  Every failure unwinds exactly
what was built, in reverse order, and returns `none`. -/
def kdump_new (h : Heap) (nslots : Nat) :
    Option (kdump_ctx_t × kdump_shared × Dict × kdump_xlat) × Heap :=
  match alloc_ctx h nslots with
  | (none, h1) => (none, h1)
  | (some ctx, h1) =>
    match alloc_shared h1 nslots with
    | (none, h2) => (none, (addrxlat_ctx_decref h2 ctx.xlatctx).free ctx.self)
    | (some sh0, h2) =>
      let sh : kdump_shared := { sh0 with ctxs := [ctx] }
      match attr_dict_new h2 with
      | (none, h3) =>
        (none, (addrxlat_ctx_decref (shared_decref h3 sh).2.2 ctx.xlatctx).free ctx.self)
      | (some d, h3) =>
        match xlat_new h3 with
        | (none, h4) =>
          (none,
           (addrxlat_ctx_decref
             (shared_decref (attr_dict_decref h4 d).2 sh).2.2 ctx.xlatctx).free ctx.self)
        | (some x0, h4) =>
          (some (ctx, sh, d, { x0 with ctxs := [ctx.self] }), h4)

/-- The slot-buffer loop of `kdump_clone`: for each slot index in
increasing order, if the original's shared table records a nonzero size,
allocate a private buffer of that size into `ctx->data[slot]`.  On a
`malloc` failure the C code walks the earlier indices backwards, freeing
`ctx->data[slot]` wherever the table entry is nonzero; here each
recursion level frees its own buffer as the failure propagates outward,
performing the identical frees in the identical order. -/
def cloneSlots (h : Heap) (data : List (Option Nat)) (idx : Nat) :
    List Nat → Option (List (Option Nat)) × Heap
  | [] => (some data, h)
  | sz :: rest =>
    if sz = 0 then cloneSlots h data (idx + 1) rest
    else
      match h.malloc sz with
      | (none, h') => (none, h')
      | (some p, h') =>
        match cloneSlots h' (data.set idx (some p)) (idx + 1) rest with
        | (some data', h'') => (some data', h'')
        | (none, h'') => (none, h''.freeOpt ((data.set idx (some p)).getD idx none))

/-- Function `kdump_clone(orig)`: build a fresh context (`alloc_ctx`: its own
error channel and translation coordinate-system handle), allocate its
per-context buffers for every used slot of the original's shared table
(rolling back, releasing the new translation handle and freeing the
context block on failure, without touching any shared object), then
attach it: increment the shared refcount and prepend to its context
list, increment the dictionary refcount, increment the translation
domain refcount and prepend to its context list. -/
def kdump_clone (h : Heap) (s : kdump_shared) (x : kdump_xlat) (d : Dict)
    (orig : kdump_ctx_t) :
    Option kdump_ctx_t × kdump_shared × kdump_xlat × Dict × Heap :=
  match alloc_ctx h s.per_ctx_size.length with
  | (none, h') => (none, s, x, d, h')
  | (some ctx, h') =>
    match cloneSlots h' ctx.data 0 s.per_ctx_size with
    | (none, h'') => (none, s, x, d, (addrxlat_ctx_decref h'' ctx.xlatctx).free ctx.self)
    | (some data', h'') =>
      let ctx' : kdump_ctx_t := { ctx with data := data' }
      (some ctx',
        { (shared_incref_locked s).2 with ctxs := ctx' :: s.ctxs },
        { xlat_incref x with ctxs := ctx'.self :: x.ctxs },
        attr_dict_incref d,
        h'')

instance : Inhabited kdump_shared := ⟨⟨0, 1, [], []⟩⟩

/-! ## `allocLoop` characterization -/

/-- The context list produced by a fully successful `allocLoop` run that
starts with fresh address `n`: the `j`-th context receives buffer
address `n + j` at `slot`. -/
def stamp (slot : Nat) : Nat → List kdump_ctx_t → List kdump_ctx_t
  | _, [] => []
  | n, c :: cs => { c with data := c.data.set slot (some n) } :: stamp slot (n + 1) cs

/-! ## Lifecycle traces and the reference-count invariant -/

/-- Modelled from the spec: context destruction (`kdump_free`, not among
the sources) detaches the head context from the registry's list, frees
its slot buffers (those whose table entry is in use), frees its
translation coordinate-system handle and its block, and finally releases
the registry reference, destroying the registry when the count reaches
zero.  Applied to the most recently attached context. -/
def kdump_free_head (h : Heap) (s : kdump_shared) : Option kdump_shared × Heap :=
  match s.ctxs with
  | [] => (some s, h)
  | c :: rest =>
    let h1 := (List.range s.per_ctx_size.length).foldl
      (fun hh i => if s.per_ctx_size.getD i 0 ≠ 0 then hh.freeOpt (c.data.getD i none)
                   else hh) h
    let h2 := (addrxlat_ctx_decref h1 c.xlatctx).free c.self
    (shared_decref h2 { s with ctxs := rest }).2

/-- One registry under test: the heap, the registry (`none` once its
reference count has dropped to zero and it was destroyed), its
translation domain and dictionary, and the ghost count of outstanding
explicit `shared_incref` acquires. -/
structure RegSt where
  heap : Heap
  sh : Option kdump_shared
  x : kdump_xlat
  d : Dict
  ext : Nat

/-- Operations a caller can perform on the registry after `kdump_new`:
clone a context off it, explicitly acquire or release it, or destroy its
most recently attached context. -/
inductive RegOp where
  | clone
  | acquire
  | release
  | destroy

/-- One trace step, built from the model's lifecycle functions. -/
def regStep (st : RegSt) : RegOp → RegSt
  | RegOp.acquire =>
    match st.sh with
    | none => st
    | some s => { st with sh := some (shared_incref s).2, ext := st.ext + 1 }
  | RegOp.release =>
    match st.sh with
    | none => st
    | some s =>
      let r := shared_decref st.heap s
      { st with sh := r.2.1, heap := r.2.2, ext := st.ext - 1 }
  | RegOp.clone =>
    match st.sh with
    | none => st
    | some s =>
      match s.ctxs with
      | [] => st
      | c :: _ =>
        let r := kdump_clone st.heap s st.x st.d c
        { st with sh := some r.2.1, x := r.2.2.1, d := r.2.2.2.1,
                  heap := r.2.2.2.2 }
  | RegOp.destroy =>
    match st.sh with
    | none => st
    | some s =>
      let r := kdump_free_head st.heap s
      { st with sh := r.1, heap := r.2 }

/-- Caller contract for a step: an explicit release must match an
outstanding explicit acquire. -/
def regValidB (st : RegSt) : RegOp → Bool
  | RegOp.release => decide (0 < st.ext)
  | _ => true

/-- A trace is valid when every step respects the caller contract in the
state where it runs. -/
def validRun : RegSt → List RegOp → Bool
  | _, [] => true
  | st, op :: ops => regValidB st op && validRun (regStep st op) ops

/-- Run a trace. -/
def regRun (st : RegSt) (ops : List RegOp) : RegSt := ops.foldl regStep st

/-- The reference-count invariant: while the registry is alive, its
count equals the number of attached contexts plus the outstanding
explicit acquires, and is positive. -/
def regInv (st : RegSt) : Prop :=
  ∀ s, st.sh = some s → s.refcnt = s.ctxs.length + st.ext ∧ 0 < s.refcnt

/-! ## Invariant definitions -/

/-- Length discipline: every attached context's slot array has exactly
`PER_CTX_SLOTS` entries, i.e. as many as the slot-size table. -/
def wfLens (s : kdump_shared) : Prop :=
  ∀ c ∈ s.ctxs, c.data.length = s.per_ctx_size.length

/-- The used-slot invariant direction that the code maintains: every
attached context holds a non-null buffer pointer at every slot index
whose table entry is nonzero. -/
def slotInv (s : kdump_shared) : Prop :=
  ∀ j, j < s.ctxs.length → ∀ i, i < s.per_ctx_size.length →
    s.per_ctx_size.getD i 0 ≠ 0 →
    ((s.ctxs.getD j default).data.getD i none).isSome

instance slotInv_decidable (s : kdump_shared) : Decidable (slotInv s) := by
  unfold slotInv
  infer_instance

instance wfLens_decidable (s : kdump_shared) : Decidable (wfLens s) := by
  unfold wfLens
  infer_instance

/-! ## Concrete states used by witnesses and counterexamples -/

/-- A heap whose allocations all succeed. -/
def heapT : Heap := ⟨20, 0, fun _ => true, fun _ => none⟩

/-- A heap where only the first fallible primitive succeeds. -/
def heapF1 : Heap := ⟨20, 0, fun n => n == 0, fun _ => none⟩

/-- A heap where the first two fallible primitives succeed and the rest
fail. -/
def heapF2 : Heap := ⟨30, 0, fun n => n == 0 || n == 1, fun _ => none⟩

/-- A registry with two attached contexts and one (free) slot. -/
def shAB : kdump_shared := ⟨2, 2, [0], [⟨10, 11, [none]⟩, ⟨12, 13, [none]⟩]⟩

/-- A registry with one attached context holding a live buffer at the
used slot 0. -/
def shUsed : kdump_shared := ⟨2, 1, [8], [⟨10, 11, [some 5]⟩]⟩

/-- A heap in which `shUsed`'s buffer 5 is live. -/
def heapUsed : Heap := ⟨20, 0, fun _ => true, fun q => if q = 5 then some 8 else none⟩

/-- A registry with one attached context and a single free slot. -/
def shOne : kdump_shared := ⟨2, 1, [0], [⟨10, 11, [none]⟩]⟩

/-- A full registry: every table entry is in use. -/
def shFull : kdump_shared := ⟨2, 1, [7], []⟩

/-- The state reached by `kdump_new`, then `per_ctx_alloc` of size 8,
then `per_ctx_free` of the returned slot 0, all allocations succeeding. -/
def runNewAllocFree : kdump_shared × Heap :=
  match kdump_new heapT 1 with
  | (some (_, sh, _, _), h) =>
    match per_ctx_alloc h sh 8 with
    | (_, sh', h') => per_ctx_free h' sh' 0
  | (none, h) => (default, h)

/-! ## C4: clone-time slot allocation and rollback -/

/-- A translation domain and dictionary for clone scenarios. -/
def xW : kdump_xlat := ⟨3, 1, [10]⟩

def dW : Dict := ⟨4, 1⟩

/-- The context attached to `shUsed`. -/
def origUsed : kdump_ctx_t := ⟨10, 11, [some 5]⟩

/-! ## C5: `kdump_new` unwinds completely on failure -/

/-- A heap on which every fallible primitive fails. -/
def heapNone : Heap := ⟨0, 0, fun _ => false, fun _ => none⟩

/-- The trace used by C2's witness: an explicit acquire, a clone, a
destruction of the clone, the matching explicit release, leaving the
original context attached. -/
def opsW : List RegOp := [RegOp.acquire, RegOp.clone, RegOp.destroy, RegOp.release]

/-- The registry state right after `kdump_new heapT 1`. -/
def stW : RegSt :=
  ⟨(kdump_new heapT 1).2, some ⟨22, 1, [0], [⟨20, 21, [none]⟩]⟩, ⟨24, 1, [20]⟩,
   ⟨23, 1⟩, 0⟩

/-! ## List helper lemmas -/

lemma list_getD_set_eq {α : Type} : ∀ (l : List α) (i : Nat) (v d : α),
    i < l.length → (l.set i v).getD i d = v := by
  intro l
  induction l with
  | nil => intro i v d hi; simp at hi
  | cons a as ih =>
    intro i v d hi
    cases i with
    | zero => simp
    | succ j => simpa using ih j v d (by simpa using hi)

lemma list_getD_set_ne {α : Type} : ∀ (l : List α) (i j : Nat) (v d : α),
    i ≠ j → (l.set i v).getD j d = l.getD j d := by
  intro l
  induction l with
  | nil => intro i j v d _; simp
  | cons a as ih =>
    intro i j v d hij
    cases i with
    | zero =>
      cases j with
      | zero => exact absurd rfl hij
      | succ j' => simp
    | succ i' =>
      cases j with
      | zero => simp
      | succ j' => simpa using ih i' j' v d (by omega)

lemma list_set_zero_self : ∀ (l : List Nat) (i : Nat),
    l.getD i 0 = 0 → l.set i 0 = l := by
  intro l
  induction l with
  | nil => intro i _; simp
  | cons a as ih =>
    intro i h0
    cases i with
    | zero => simp_all
    | succ j => simpa using ih j (by simpa using h0)

/-! ## `firstFreeSlot` specification -/

lemma firstFreeSlot_none_iff : ∀ (l : List Nat),
    firstFreeSlot l = none ↔ ∀ j, j < l.length → l.getD j 0 ≠ 0 := by
  intro l
  induction l with
  | nil => simp [firstFreeSlot]
  | cons a as ih =>
    by_cases ha : a = 0
    · subst ha
      simp only [firstFreeSlot, if_pos rfl]
      constructor
      · intro h; cases h
      · intro h; exact absurd rfl (h 0 (by simp))
    · rw [show firstFreeSlot (a :: as) = (firstFreeSlot as).map (fun i => i + 1) by
        simp [firstFreeSlot, ha]]
      rw [Option.map_eq_none', ih]
      constructor
      · intro h j hj
        cases j with
        | zero => simpa using ha
        | succ j' => simpa using h j' (by simpa using hj)
      · intro h j hj
        have := h (j + 1) (by simpa using hj)
        simpa using this

lemma firstFreeSlot_some_spec : ∀ (l : List Nat) (i : Nat),
    firstFreeSlot l = some i →
    i < l.length ∧ l.getD i 0 = 0 ∧ ∀ j, j < i → l.getD j 0 ≠ 0 := by
  intro l
  induction l with
  | nil => intro i h; cases h
  | cons a as ih =>
    intro i h
    by_cases ha : a = 0
    · subst ha
      rw [show firstFreeSlot (0 :: as) = some 0 by simp [firstFreeSlot]] at h
      injection h with h
      subst h
      exact ⟨by simp, by simp, fun j hj => absurd hj (by omega)⟩
    · rw [show firstFreeSlot (a :: as) = (firstFreeSlot as).map (fun i => i + 1) by
        simp [firstFreeSlot, ha]] at h
      cases hr : firstFreeSlot as with
      | none => rw [hr] at h; cases h
      | some i' =>
        rw [hr] at h
        simp only [Option.map_some'] at h
        injection h with h
        subst h
        obtain ⟨h1, h2, h3⟩ := ih i' hr
        refine ⟨by simpa using h1, by simpa using h2, ?_⟩
        intro j hj
        cases j with
        | zero => simpa using ha
        | succ j' => simpa using h3 j' (by omega)

/-! ## Heap lemmas -/

@[simp] lemma Heap.bump_next (h : Heap) (sz : Nat) : (h.bump sz).next = h.next + 1 := rfl
@[simp] lemma Heap.bump_cnt (h : Heap) (sz : Nat) : (h.bump sz).cnt = h.cnt + 1 := rfl
@[simp] lemma Heap.bump_plan (h : Heap) (sz : Nat) : (h.bump sz).plan = h.plan := rfl
lemma Heap.bump_blocks (h : Heap) (sz q : Nat) :
    (h.bump sz).blocks q = if q = h.next then some sz else h.blocks q := rfl

@[simp] lemma Heap.skip_next (h : Heap) : h.skip.next = h.next := rfl
@[simp] lemma Heap.skip_cnt (h : Heap) : h.skip.cnt = h.cnt + 1 := rfl
@[simp] lemma Heap.skip_plan (h : Heap) : h.skip.plan = h.plan := rfl
@[simp] lemma Heap.skip_blocks (h : Heap) : h.skip.blocks = h.blocks := rfl
@[simp] lemma Heap.free_next (h : Heap) (p : Nat) : (h.free p).next = h.next := rfl
@[simp] lemma Heap.free_cnt (h : Heap) (p : Nat) : (h.free p).cnt = h.cnt := rfl
@[simp] lemma Heap.free_plan (h : Heap) (p : Nat) : (h.free p).plan = h.plan := rfl
lemma Heap.free_blocks (h : Heap) (p q : Nat) :
    (h.free p).blocks q = if q = p then none else h.blocks q := rfl

lemma Heap.malloc_true {h : Heap} (hp : h.plan h.cnt = true) (sz : Nat) :
    h.malloc sz = (some h.next, h.bump sz) := by
  simp [Heap.malloc, hp]

lemma Heap.malloc_false {h : Heap} (hp : h.plan h.cnt = false) (sz : Nat) :
    h.malloc sz = (none, h.skip) := by
  simp [Heap.malloc, hp]

lemma Heap.wf_bump {h : Heap} (hw : h.wf) (sz : Nat) : (h.bump sz).wf := by
  intro p hp'
  simp only [Heap.bump_next] at hp'
  rw [Heap.bump_blocks, if_neg (by omega)]
  exact hw p (by omega)

lemma Heap.wf_skip {h : Heap} (hw : h.wf) : h.skip.wf := by
  intro p hp'
  rw [Heap.skip_blocks]
  exact hw p hp'

lemma stamp_length (slot : Nat) : ∀ (n : Nat) (cs : List kdump_ctx_t),
    (stamp slot n cs).length = cs.length := by
  intro n cs
  induction cs generalizing n with
  | nil => rfl
  | cons c cs ih => simp [stamp, ih]

lemma stamp_getD (slot : Nat) : ∀ (cs : List kdump_ctx_t) (n j : Nat), j < cs.length →
    (stamp slot n cs).getD j default =
      { (cs.getD j default) with
        data := (cs.getD j default).data.set slot (some (n + j)) } := by
  intro cs
  induction cs with
  | nil => intro n j hj; simp at hj
  | cons c cs ih =>
    intro n j hj
    cases j with
    | zero => simp [stamp]
    | succ j' =>
      have hstep : n + (j' + 1) = (n + 1) + j' := by omega
      rw [hstep]
      simpa [stamp] using ih (n + 1) j' (by simpa using hj)

lemma allocLoop_true_eq (sz slot : Nat) :
    ∀ (cs : List kdump_ctx_t) (h : Heap) (out : List kdump_ctx_t) (h' : Heap),
      allocLoop sz slot h cs = (true, out, h') →
      out = stamp slot h.next cs ∧
      h'.next = h.next + cs.length ∧ h'.cnt = h.cnt + cs.length ∧ h'.plan = h.plan ∧
      (∀ q, h'.blocks q =
        if h.next ≤ q ∧ q < h.next + cs.length then some sz else h.blocks q) := by
  intro cs
  induction cs with
  | nil =>
    intro h out h' hrun
    simp only [allocLoop, Prod.mk.injEq, true_and] at hrun
    obtain ⟨hout, hh⟩ := hrun
    subst hout hh
    refine ⟨rfl, by simp, by simp, rfl, ?_⟩
    intro q
    rw [if_neg (by simp only [List.length_nil]; omega)]
  | cons c cs ih =>
    intro h out h' hrun
    cases hp : h.plan h.cnt with
    | false =>
      simp only [allocLoop, Heap.malloc_false hp] at hrun
      cases hrun
    | true =>
      simp only [allocLoop, Heap.malloc_true hp sz] at hrun
      cases hrec : allocLoop sz slot (h.bump sz) cs with
      | mk b rest =>
        obtain ⟨cs', h''⟩ := rest
        rw [hrec] at hrun
        cases b with
        | false => simp at hrun
        | true =>
          simp only [Prod.mk.injEq, true_and] at hrun
          obtain ⟨hout, hh⟩ := hrun
          obtain ⟨hcs', hnext, hcnt, hplan, hblocks⟩ := ih _ _ _ hrec
          subst hout hh
          simp only [Heap.bump_next, Heap.bump_cnt, Heap.bump_plan] at hnext hcnt hplan
          refine ⟨?_, by simp only [List.length_cons]; omega,
                  by simp only [List.length_cons]; omega, hplan, ?_⟩
          · simp only [stamp]
            rw [hcs']
            simp only [Heap.bump_next]
          · intro q
            have hb := hblocks q
            simp only [Heap.bump_next, Heap.bump_blocks] at hb
            rw [hb]
            simp only [List.length_cons]
            by_cases hq1 : q = h.next
            · subst hq1
              rw [if_neg (by omega), if_pos rfl, if_pos (by omega)]
            · by_cases hq2 : h.next + 1 ≤ q ∧ q < h.next + 1 + cs.length
              · rw [if_pos hq2, if_pos (by omega)]
              · rw [if_neg hq2, if_neg hq1, if_neg (by omega)]

lemma list_getD_set_same_default {α : Type} : ∀ (l : List α) (i : Nat) (d : α),
    (l.set i d).getD i d = d := by
  intro l
  induction l with
  | nil => intro i d; simp
  | cons a as ih =>
    intro i d
    cases i with
    | zero => simp
    | succ j => simpa using ih j d

lemma allocLoop_false_eq (sz slot L : Nat) :
    ∀ (cs : List kdump_ctx_t) (h : Heap) (out : List kdump_ctx_t) (h' : Heap),
      h.wf → slot < L → (∀ c ∈ cs, c.data.length = L) →
      allocLoop sz slot h cs = (false, out, h') →
      (∀ q, h'.blocks q = h.blocks q) ∧ h'.plan = h.plan ∧ h.next ≤ h'.next ∧
      out.length = cs.length ∧
      (∀ j i, i ≠ slot →
        (out.getD j default).data.getD i none =
          (cs.getD j default).data.getD i none) ∧
      (∀ j,
        (out.getD j default).data.getD slot none =
            (cs.getD j default).data.getD slot none ∨
        (out.getD j default).data.getD slot none = none ∨
        ∃ p, (out.getD j default).data.getD slot none = some p ∧
             h'.blocks p = none ∧ h.next ≤ p) := by
  intro cs
  induction cs with
  | nil =>
    intro h out h' _ _ _ hrun
    simp only [allocLoop] at hrun
    cases hrun
  | cons c cs ih =>
    intro h out h' hw hslot hlens hrun
    cases hp : h.plan h.cnt with
    | false =>
      simp only [allocLoop, Heap.malloc_false hp, Prod.mk.injEq, true_and] at hrun
      obtain ⟨hout, hh⟩ := hrun
      subst hout hh
      refine ⟨fun q => rfl, rfl, Nat.le_refl _, by simp, ?_, ?_⟩
      · intro j i hi
        cases j with
        | zero =>
          simpa using list_getD_set_ne c.data slot i none none (fun e => hi e.symm)
        | succ j' => simp
      · intro j
        cases j with
        | zero =>
          right; left
          simpa using list_getD_set_same_default c.data slot none
        | succ j' => left; simp
    | true =>
      simp only [allocLoop, Heap.malloc_true hp sz] at hrun
      cases hrec : allocLoop sz slot (h.bump sz) cs with
      | mk b rest =>
        obtain ⟨cs', h''⟩ := rest
        rw [hrec] at hrun
        cases b with
        | true => simp at hrun
        | false =>
          simp only [Prod.mk.injEq, true_and] at hrun
          obtain ⟨hout, hh⟩ := hrun
          have hclen : c.data.length = L := hlens c (by simp)
          have hgetp :
              (({ c with data := c.data.set slot (some h.next) } :
                  kdump_ctx_t).data).getD slot none = some h.next := by
            simpa using list_getD_set_eq c.data slot (some h.next) none (by omega)
          rw [hgetp] at hh
          obtain ⟨hbIH, hplanIH, hnextIH, hlenIH, hptIH, hslotIH⟩ :=
            ih (h.bump sz) cs' h'' (Heap.wf_bump hw sz) hslot
              (fun c hc => hlens c (by simp [hc])) hrec
          subst hout hh
          simp only [Heap.bump_next] at hnextIH
          refine ⟨?_, by simpa using hplanIH, by simpa using Nat.le_of_succ_le hnextIH,
                  by simpa using hlenIH, ?_, ?_⟩
          · intro q
            simp only [Heap.freeOpt, Heap.free_blocks]
            by_cases hq : q = h.next
            · subst hq
              rw [if_pos rfl, (hw h.next (Nat.le_refl _)).symm]
            · rw [if_neg hq, hbIH q, Heap.bump_blocks, if_neg hq]
          · intro j i hi
            cases j with
            | zero =>
              simpa using list_getD_set_ne c.data slot i (some h.next) none
                (fun e => hi e.symm)
            | succ j' => simpa using hptIH j' i hi
          · intro j
            cases j with
            | zero =>
              right; right
              have hg : (c.data.set slot (some h.next)).getD slot none = some h.next :=
                list_getD_set_eq c.data slot (some h.next) none (by omega)
              refine ⟨h.next, by simpa using hg, ?_, Nat.le_refl _⟩
              simp [Heap.freeOpt, Heap.free_blocks]
            | succ j' =>
              rcases hslotIH j' with hcase | hcase | ⟨p, hp1, hp2, hp3⟩
              · left; simpa using hcase
              · right; left; simpa using hcase
              · right; right
                simp only [Heap.bump_next] at hp3
                refine ⟨p, by simpa using hp1, ?_, by omega⟩
                simp only [Heap.freeOpt, Heap.free_blocks]
                rw [if_neg (by omega), hp2]

lemma allocLoop_all_true (sz slot : Nat) :
    ∀ (cs : List kdump_ctx_t) (h : Heap), (∀ n, h.plan n = true) →
      (allocLoop sz slot h cs).1 = true := by
  intro cs
  induction cs with
  | nil => intro h _; rfl
  | cons c cs ih =>
    intro h hpl
    simp only [allocLoop, Heap.malloc_true (hpl h.cnt) sz]
    cases hrec : allocLoop sz slot (h.bump sz) cs with
    | mk b rest =>
      obtain ⟨cs', h''⟩ := rest
      have hb : b = true := by
        have := ih (h.bump sz) (by simpa using hpl)
        rw [hrec] at this
        exact this
      subst hb
      rfl

lemma cloneSlots_some :
    ∀ (rest : List Nat) (h : Heap) (data : List (Option Nat)) (idx : Nat)
      (out : List (Option Nat)) (h' : Heap),
      idx + rest.length ≤ data.length →
      cloneSlots h data idx rest = (some out, h') →
      out.length = data.length ∧ h'.plan = h.plan ∧ h.next ≤ h'.next ∧
      (∀ i, i < idx → out.getD i none = data.getD i none) ∧
      (∀ j, j < rest.length →
        (rest.getD j 0 = 0 → out.getD (idx + j) none = data.getD (idx + j) none) ∧
        (rest.getD j 0 ≠ 0 → ∃ p, out.getD (idx + j) none = some p ∧
          h.next ≤ p ∧ h'.blocks p = some (rest.getD j 0))) ∧
      (∀ q, q < h.next → h'.blocks q = h.blocks q) := by
  intro rest
  induction rest with
  | nil =>
    intro h data idx out h' _ hrun
    simp only [cloneSlots, Prod.mk.injEq, Option.some.injEq] at hrun
    obtain ⟨hout, hh⟩ := hrun
    subst hout hh
    exact ⟨rfl, rfl, Nat.le_refl _, fun i _ => rfl,
           fun j hj => absurd hj (by simp), fun q _ => rfl⟩
  | cons sz rest ih =>
    intro h data idx out h' hbound hrun
    by_cases hsz : sz = 0
    · subst hsz
      rw [show cloneSlots h data idx (0 :: rest) = cloneSlots h data (idx + 1) rest by
        simp [cloneSlots]] at hrun
      obtain ⟨hlen, hplan, hnext, hlow, hmain, hold⟩ :=
        ih h data (idx + 1) out h' (by simp at hbound ⊢; omega) hrun
      refine ⟨hlen, hplan, hnext, fun i hi => hlow i (by omega), ?_, hold⟩
      intro j hj
      cases j with
      | zero =>
        refine ⟨fun _ => ?_, fun hne => (hne (by simp)).elim⟩
        simpa using hlow idx (by omega)
      | succ j' =>
        have hstep : idx + (j' + 1) = (idx + 1) + j' := by omega
        rw [hstep]
        simpa using hmain j' (by simpa using hj)
    · rw [show cloneSlots h data idx (sz :: rest) =
          (match h.malloc sz with
           | (none, h') => (none, h')
           | (some p, h') =>
             match cloneSlots h' (data.set idx (some p)) (idx + 1) rest with
             | (some data', h'') => (some data', h'')
             | (none, h'') =>
               (none, h''.freeOpt ((data.set idx (some p)).getD idx none))) by
        simp [cloneSlots, hsz]] at hrun
      cases hp : h.plan h.cnt with
      | false =>
        rw [Heap.malloc_false hp] at hrun
        cases hrun
      | true =>
        rw [Heap.malloc_true hp sz] at hrun
        simp only at hrun
        cases hrec : cloneSlots (h.bump sz) (data.set idx (some h.next)) (idx + 1) rest with
        | mk o h'' =>
          rw [hrec] at hrun
          cases o with
          | none => simp at hrun
          | some data' =>
            simp only [Prod.mk.injEq, Option.some.injEq] at hrun
            obtain ⟨hout, hh⟩ := hrun
            have hidx : idx < data.length := by simp at hbound; omega
            obtain ⟨hlen, hplan, hnext, hlow, hmain, hold⟩ :=
              ih (h.bump sz) (data.set idx (some h.next)) (idx + 1) data' h''
                (by simp [List.length_set] at hbound ⊢; omega) hrec
            subst hout hh
            simp only [List.length_set] at hlen
            simp only [Heap.bump_plan] at hplan
            simp only [Heap.bump_next] at hnext
            refine ⟨hlen, hplan, by omega, ?_, ?_, ?_⟩
            · intro i hi
              rw [hlow i (by omega)]
              exact list_getD_set_ne data idx i (some h.next) none (by omega)
            · intro j hj
              cases j with
              | zero =>
                refine ⟨fun h0 => absurd (by simpa using h0) hsz, fun _ => ?_⟩
                refine ⟨h.next, ?_, Nat.le_refl _, ?_⟩
                · have := hlow idx (by omega)
                  simp only [Nat.add_zero]
                  rw [this]
                  exact list_getD_set_eq data idx (some h.next) none hidx
                · have := hold h.next (by simp)
                  rw [this, Heap.bump_blocks, if_pos rfl]
                  simp
              | succ j' =>
                have hstep : idx + (j' + 1) = (idx + 1) + j' := by omega
                rw [hstep]
                obtain ⟨hz, hnz⟩ := hmain j' (by simpa using hj)
                refine ⟨fun h0 => ?_, fun hne => ?_⟩
                · rw [hz (by simpa using h0)]
                  exact list_getD_set_ne data idx ((idx + 1) + j') (some h.next) none
                    (by omega)
                · obtain ⟨p, hp1, hp2, hp3⟩ := hnz (by simpa using hne)
                  exact ⟨p, by simpa using hp1, by simp at hp2; omega, by simpa using hp3⟩
            · intro q hq
              rw [hold q (by simp; omega), Heap.bump_blocks, if_neg (by omega)]

lemma cloneSlots_none :
    ∀ (rest : List Nat) (h : Heap) (data : List (Option Nat)) (idx : Nat) (h' : Heap),
      h.wf → idx + rest.length ≤ data.length →
      cloneSlots h data idx rest = (none, h') →
      (∀ q, h'.blocks q = h.blocks q) ∧ h'.plan = h.plan ∧ h.next ≤ h'.next := by
  intro rest
  induction rest with
  | nil =>
    intro h data idx h' _ _ hrun
    simp only [cloneSlots] at hrun
    cases hrun
  | cons sz rest ih =>
    intro h data idx h' hw hbound hrun
    by_cases hsz : sz = 0
    · subst hsz
      rw [show cloneSlots h data idx (0 :: rest) = cloneSlots h data (idx + 1) rest by
        simp [cloneSlots]] at hrun
      exact ih h data (idx + 1) h' hw (by simp at hbound ⊢; omega) hrun
    · rw [show cloneSlots h data idx (sz :: rest) =
          (match h.malloc sz with
           | (none, h') => (none, h')
           | (some p, h') =>
             match cloneSlots h' (data.set idx (some p)) (idx + 1) rest with
             | (some data', h'') => (some data', h'')
             | (none, h'') =>
               (none, h''.freeOpt ((data.set idx (some p)).getD idx none))) by
        simp [cloneSlots, hsz]] at hrun
      cases hp : h.plan h.cnt with
      | false =>
        rw [Heap.malloc_false hp] at hrun
        simp only [Prod.mk.injEq] at hrun
        obtain ⟨_, hh⟩ := hrun
        subst hh
        exact ⟨fun q => rfl, rfl, Nat.le_refl _⟩
      | true =>
        rw [Heap.malloc_true hp sz] at hrun
        simp only at hrun
        cases hrec : cloneSlots (h.bump sz) (data.set idx (some h.next)) (idx + 1) rest with
        | mk o h'' =>
          rw [hrec] at hrun
          cases o with
          | some data' => simp at hrun
          | none =>
            simp only [Prod.mk.injEq] at hrun
            obtain ⟨_, hh⟩ := hrun
            have hidx : idx < data.length := by simp at hbound; omega
            have hget : (data.set idx (some h.next)).getD idx none = some h.next :=
              list_getD_set_eq data idx (some h.next) none hidx
            rw [hget] at hh
            subst hh
            obtain ⟨hbIH, hplanIH, hnextIH⟩ :=
              ih (h.bump sz) (data.set idx (some h.next)) (idx + 1) h''
                (Heap.wf_bump hw sz) (by simp [List.length_set] at hbound ⊢; omega) hrec
            simp only [Heap.bump_plan] at hplanIH
            simp only [Heap.bump_next] at hnextIH
            refine ⟨?_, hplanIH, by simp [Heap.freeOpt]; omega⟩
            intro q
            simp only [Heap.freeOpt, Heap.free_blocks]
            by_cases hq : q = h.next
            · subst hq
              rw [if_pos rfl, (hw h.next (Nat.le_refl _)).symm]
            · rw [if_neg hq, hbIH q, Heap.bump_blocks, if_neg hq]

lemma alloc_ctx_some {h : Heap} {n : Nat} {ctx : kdump_ctx_t} {h1 : Heap}
    (hrun : alloc_ctx h n = (some ctx, h1)) :
    ctx = ⟨h.next, h.next + 1, List.replicate n none⟩ ∧ h1 = (h.bump 1).bump 1 := by
  cases hp1 : h.plan h.cnt with
  | false =>
    rw [show alloc_ctx h n = (none, h.skip) by
      simp [alloc_ctx, Heap.malloc_false hp1]] at hrun
    cases hrun
  | true =>
    cases hp2 : (h.bump 1).plan (h.bump 1).cnt with
    | false =>
      rw [show alloc_ctx h n = (none, (h.bump 1).skip.free h.next) by
        simp [alloc_ctx, init_addrxlat, Heap.malloc_true hp1, Heap.malloc_false hp2]] at hrun
      cases hrun
    | true =>
      rw [show alloc_ctx h n =
          (some ⟨h.next, (h.bump 1).next, List.replicate n none⟩, (h.bump 1).bump 1) by
        simp [alloc_ctx, init_addrxlat, Heap.malloc_true hp1, Heap.malloc_true hp2]] at hrun
      simp only [Prod.mk.injEq, Option.some.injEq] at hrun
      obtain ⟨hc, hh⟩ := hrun
      exact ⟨by rw [← hc]; simp, hh.symm⟩

lemma alloc_ctx_none {h : Heap} {n : Nat} {h1 : Heap} (hw : h.wf)
    (hrun : alloc_ctx h n = (none, h1)) :
    (∀ q, h1.blocks q = h.blocks q) ∧ h1.plan = h.plan ∧ h.next ≤ h1.next ∧ h1.wf := by
  cases hp1 : h.plan h.cnt with
  | false =>
    rw [show alloc_ctx h n = (none, h.skip) by
      simp [alloc_ctx, Heap.malloc_false hp1]] at hrun
    simp only [Prod.mk.injEq, true_and] at hrun
    subst hrun
    exact ⟨fun q => rfl, rfl, Nat.le_refl _, Heap.wf_skip hw⟩
  | true =>
    cases hp2 : (h.bump 1).plan (h.bump 1).cnt with
    | true =>
      rw [show alloc_ctx h n =
          (some ⟨h.next, (h.bump 1).next, List.replicate n none⟩, (h.bump 1).bump 1) by
        simp [alloc_ctx, init_addrxlat, Heap.malloc_true hp1, Heap.malloc_true hp2]] at hrun
      cases hrun
    | false =>
      rw [show alloc_ctx h n = (none, (h.bump 1).skip.free h.next) by
        simp [alloc_ctx, init_addrxlat, Heap.malloc_true hp1, Heap.malloc_false hp2]] at hrun
      simp only [Prod.mk.injEq, true_and] at hrun
      subst hrun
      refine ⟨?_, rfl, by simp, ?_⟩
      · intro q
        rw [Heap.free_blocks]
        by_cases hq : q = h.next
        · subst hq
          rw [if_pos rfl, (hw h.next (Nat.le_refl _)).symm]
        · rw [if_neg hq]
          simp only [Heap.skip_blocks, Heap.bump_blocks]
          rw [if_neg hq]
      · intro p hp
        simp only [Heap.free_next, Heap.skip_next, Heap.bump_next] at hp
        rw [Heap.free_blocks, if_neg (by omega)]
        simp only [Heap.skip_blocks, Heap.bump_blocks]
        rw [if_neg (by omega)]
        exact hw p (by omega)

lemma alloc_shared_some {h : Heap} {n : Nat} {sh : kdump_shared} {h2 : Heap}
    (hrun : alloc_shared h n = (some sh, h2)) :
    sh = ⟨h.next, 1, List.replicate n 0, []⟩ ∧ h2 = (h.bump 1).skip := by
  cases hp1 : h.plan h.cnt with
  | false =>
    rw [show alloc_shared h n = (none, h.skip) by
      simp [alloc_shared, Heap.malloc_false hp1]] at hrun
    cases hrun
  | true =>
    cases hp2 : h.plan (h.cnt + 1) with
    | false =>
      rw [show alloc_shared h n = (none, (h.bump 1).skip.free h.next) by
        simp [alloc_shared, Heap.malloc_true hp1, Heap.tryOp, hp2]] at hrun
      cases hrun
    | true =>
      rw [show alloc_shared h n =
          (some ⟨h.next, 1, List.replicate n 0, []⟩, (h.bump 1).skip) by
        simp [alloc_shared, Heap.malloc_true hp1, Heap.tryOp, hp2]] at hrun
      simp only [Prod.mk.injEq, Option.some.injEq] at hrun
      exact ⟨hrun.1.symm, hrun.2.symm⟩

lemma alloc_shared_none {h : Heap} {n : Nat} {h2 : Heap} (hw : h.wf)
    (hrun : alloc_shared h n = (none, h2)) :
    (∀ q, h2.blocks q = h.blocks q) ∧ h2.plan = h.plan ∧ h.next ≤ h2.next ∧ h2.wf := by
  cases hp1 : h.plan h.cnt with
  | false =>
    rw [show alloc_shared h n = (none, h.skip) by
      simp [alloc_shared, Heap.malloc_false hp1]] at hrun
    simp only [Prod.mk.injEq, true_and] at hrun
    subst hrun
    exact ⟨fun q => rfl, rfl, Nat.le_refl _, Heap.wf_skip hw⟩
  | true =>
    cases hp2 : h.plan (h.cnt + 1) with
    | true =>
      rw [show alloc_shared h n =
          (some ⟨h.next, 1, List.replicate n 0, []⟩, (h.bump 1).skip) by
        simp [alloc_shared, Heap.malloc_true hp1, Heap.tryOp, hp2]] at hrun
      cases hrun
    | false =>
      rw [show alloc_shared h n = (none, (h.bump 1).skip.free h.next) by
        simp [alloc_shared, Heap.malloc_true hp1, Heap.tryOp, hp2]] at hrun
      simp only [Prod.mk.injEq, true_and] at hrun
      subst hrun
      refine ⟨?_, rfl, by simp, ?_⟩
      · intro q
        rw [Heap.free_blocks]
        by_cases hq : q = h.next
        · subst hq
          rw [if_pos rfl, (hw h.next (Nat.le_refl _)).symm]
        · rw [if_neg hq]
          simp only [Heap.skip_blocks, Heap.bump_blocks]
          rw [if_neg hq]
      · intro p hp
        simp only [Heap.free_next, Heap.skip_next, Heap.bump_next] at hp
        rw [Heap.free_blocks, if_neg (by omega)]
        simp only [Heap.skip_blocks, Heap.bump_blocks]
        rw [if_neg (by omega)]
        exact hw p (by omega)

lemma attr_dict_new_some {h : Heap} {d : Dict} {h' : Heap}
    (hrun : attr_dict_new h = (some d, h')) :
    d = ⟨h.next, 1⟩ ∧ h' = h.bump 1 := by
  cases hp : h.plan h.cnt with
  | false =>
    rw [show attr_dict_new h = (none, h.skip) by
      simp [attr_dict_new, Heap.malloc_false hp]] at hrun
    cases hrun
  | true =>
    rw [show attr_dict_new h = (some ⟨h.next, 1⟩, h.bump 1) by
      simp [attr_dict_new, Heap.malloc_true hp]] at hrun
    simp only [Prod.mk.injEq, Option.some.injEq] at hrun
    exact ⟨hrun.1.symm, hrun.2.symm⟩

lemma attr_dict_new_none {h : Heap} {h' : Heap}
    (hrun : attr_dict_new h = (none, h')) : h' = h.skip := by
  cases hp : h.plan h.cnt with
  | false =>
    rw [show attr_dict_new h = (none, h.skip) by
      simp [attr_dict_new, Heap.malloc_false hp]] at hrun
    simp only [Prod.mk.injEq, true_and] at hrun
    exact hrun.symm
  | true =>
    rw [show attr_dict_new h = (some ⟨h.next, 1⟩, h.bump 1) by
      simp [attr_dict_new, Heap.malloc_true hp]] at hrun
    cases hrun

lemma xlat_new_some {h : Heap} {x : kdump_xlat} {h' : Heap}
    (hrun : xlat_new h = (some x, h')) :
    x = ⟨h.next, 1, []⟩ ∧ h' = h.bump 1 := by
  cases hp : h.plan h.cnt with
  | false =>
    rw [show xlat_new h = (none, h.skip) by
      simp [xlat_new, Heap.malloc_false hp]] at hrun
    cases hrun
  | true =>
    rw [show xlat_new h = (some ⟨h.next, 1, []⟩, h.bump 1) by
      simp [xlat_new, Heap.malloc_true hp]] at hrun
    simp only [Prod.mk.injEq, Option.some.injEq] at hrun
    exact ⟨hrun.1.symm, hrun.2.symm⟩

lemma xlat_new_none {h : Heap} {h' : Heap}
    (hrun : xlat_new h = (none, h')) : h' = h.skip := by
  cases hp : h.plan h.cnt with
  | false =>
    rw [show xlat_new h = (none, h.skip) by
      simp [xlat_new, Heap.malloc_false hp]] at hrun
    simp only [Prod.mk.injEq, true_and] at hrun
    exact hrun.symm
  | true =>
    rw [show xlat_new h = (some ⟨h.next, 1, []⟩, h.bump 1) by
      simp [xlat_new, Heap.malloc_true hp]] at hrun
    cases hrun

lemma kdump_new_some {h : Heap} {n : Nat} {ctx : kdump_ctx_t} {sh : kdump_shared}
    {d : Dict} {x : kdump_xlat} {h' : Heap}
    (hrun : kdump_new h n = (some (ctx, sh, d, x), h')) :
    ctx = ⟨h.next, h.next + 1, List.replicate n none⟩ ∧
    sh = ⟨h.next + 2, 1, List.replicate n 0,
          [⟨h.next, h.next + 1, List.replicate n none⟩]⟩ ∧
    d = ⟨h.next + 3, 1⟩ ∧ x = ⟨h.next + 4, 1, [h.next]⟩ ∧
    h' = (((((h.bump 1).bump 1).bump 1).skip).bump 1).bump 1 := by
  cases hc : alloc_ctx h n with
  | mk octx h1 =>
    cases octx with
    | none => simp only [kdump_new, hc] at hrun; cases hrun
    | some ctx0 =>
      obtain ⟨hctx0, hh1⟩ := alloc_ctx_some hc
      cases hs : alloc_shared h1 n with
      | mk osh h2 =>
        cases osh with
        | none => simp only [kdump_new, hc, hs] at hrun; cases hrun
        | some sh0 =>
          obtain ⟨hsh0, hh2⟩ := alloc_shared_some hs
          cases hd : attr_dict_new h2 with
          | mk od h3 =>
            cases od with
            | none => simp only [kdump_new, hc, hs, hd] at hrun; cases hrun
            | some d0 =>
              obtain ⟨hd0, hh3⟩ := attr_dict_new_some hd
              cases hx : xlat_new h3 with
              | mk ox h4 =>
                cases ox with
                | none => simp only [kdump_new, hc, hs, hd, hx] at hrun; cases hrun
                | some x0 =>
                  obtain ⟨hx0, hh4⟩ := xlat_new_some hx
                  simp only [kdump_new, hc, hs, hd, hx, Prod.mk.injEq,
                             Option.some.injEq] at hrun
                  obtain ⟨⟨hc1, hc2, hc3, hc4⟩, hc5⟩ := hrun
                  subst hh1 hh2 hh3 hh4
                  subst hctx0 hsh0 hd0 hx0
                  simp only [Heap.bump_next, Heap.skip_next] at hc1 hc2 hc3 hc4 hc5
                  refine ⟨hc1.symm, ?_, ?_, ?_, hc5.symm⟩
                  · rw [← hc2]
                  · rw [← hc3]
                  · rw [← hc4]

lemma kdump_new_none {h : Heap} {n : Nat} {h' : Heap} (hw : h.wf)
    (hrun : kdump_new h n = (none, h')) :
    ∀ q, h'.blocks q = h.blocks q := by
  cases hc : alloc_ctx h n with
  | mk octx h1 =>
    cases octx with
    | none =>
      simp only [kdump_new, hc, Prod.mk.injEq, true_and] at hrun
      subst hrun
      exact (alloc_ctx_none hw hc).1
    | some ctx0 =>
      obtain ⟨hctx0, hh1⟩ := alloc_ctx_some hc
      cases hs : alloc_shared h1 n with
      | mk osh h2 =>
        cases osh with
        | none =>
          simp only [kdump_new, hc, hs, Prod.mk.injEq, true_and] at hrun
          subst hrun
          obtain ⟨hb2, -, -, -⟩ := alloc_shared_none (by
            subst hh1
            exact Heap.wf_bump (Heap.wf_bump hw 1) 1) hs
          intro q
          subst hctx0
          simp only [addrxlat_ctx_decref, Heap.free_blocks]
          by_cases hq0 : q = h.next
          · subst hq0
            rw [if_pos rfl, (hw h.next (Nat.le_refl _)).symm]
          · rw [if_neg hq0]
            by_cases hq1 : q = h.next + 1
            · subst hq1
              rw [if_pos rfl, (hw (h.next + 1) (by omega)).symm]
            · rw [if_neg hq1, hb2 q]
              subst hh1
              simp only [Heap.bump_blocks, Heap.bump_next]
              rw [if_neg hq1, if_neg hq0]
        | some sh0 =>
          obtain ⟨hsh0, hh2⟩ := alloc_shared_some hs
          cases hd : attr_dict_new h2 with
          | mk od h3 =>
            cases od with
            | none =>
              have hh3 : h3 = h2.skip := attr_dict_new_none hd
              simp only [kdump_new, hc, hs, hd, Prod.mk.injEq, true_and] at hrun
              subst hrun
              intro q
              subst hctx0 hsh0 hh3 hh2 hh1
              simp only [shared_decref, shared_decref_locked, shared_free,
                         addrxlat_ctx_decref, Heap.free_blocks, Heap.skip_blocks,
                         Heap.bump_blocks, Heap.skip_next, Heap.bump_next]
              by_cases hq0 : q = h.next
              · subst hq0
                rw [if_pos rfl, (hw h.next (Nat.le_refl _)).symm]
              · rw [if_neg hq0]
                by_cases hq1 : q = h.next + 1
                · subst hq1
                  rw [if_pos rfl, (hw (h.next + 1) (by omega)).symm]
                · rw [if_neg hq1]
                  by_cases hq2 : q = h.next + 2
                  · subst hq2
                    rw [if_pos rfl, (hw (h.next + 2) (by omega)).symm]
                  · rw [if_neg hq2, if_neg hq2, if_neg hq1, if_neg hq0]
            | some d0 =>
              obtain ⟨hd0, hh3⟩ := attr_dict_new_some hd
              cases hx : xlat_new h3 with
              | mk ox h4 =>
                cases ox with
                | none =>
                  have hh4 : h4 = h3.skip := xlat_new_none hx
                  simp only [kdump_new, hc, hs, hd, hx, Prod.mk.injEq, true_and] at hrun
                  subst hrun
                  intro q
                  subst hctx0 hsh0 hd0 hh4 hh3 hh2 hh1
                  simp only [attr_dict_decref, shared_decref, shared_decref_locked,
                             shared_free, addrxlat_ctx_decref, Heap.free_blocks,
                             Heap.skip_blocks, Heap.bump_blocks, Heap.skip_next,
                             Heap.bump_next]
                  by_cases hq0 : q = h.next
                  · subst hq0
                    rw [if_pos rfl, (hw h.next (Nat.le_refl _)).symm]
                  · rw [if_neg hq0]
                    by_cases hq1 : q = h.next + 1
                    · subst hq1
                      rw [if_pos rfl, (hw (h.next + 1) (by omega)).symm]
                    · rw [if_neg hq1]
                      by_cases hq2 : q = h.next + 2
                      · subst hq2
                        rw [if_pos rfl, (hw (h.next + 2) (by omega)).symm]
                      · rw [if_neg hq2]
                        by_cases hq3 : q = h.next + 3
                        · subst hq3
                          rw [if_pos rfl, (hw (h.next + 3) (by omega)).symm]
                        · rw [if_neg hq3, if_neg hq3, if_neg hq2, if_neg hq1, if_neg hq0]
                | some x0 =>
                  simp only [kdump_new, hc, hs, hd, hx] at hrun
                  cases hrun

lemma kdump_clone_none_state {h : Heap} {s : kdump_shared} {x : kdump_xlat} {d : Dict}
    {orig : kdump_ctx_t} {s' : kdump_shared} {x' : kdump_xlat} {d' : Dict} {h' : Heap}
    (hrun : kdump_clone h s x d orig = (none, s', x', d', h')) :
    s' = s ∧ x' = x ∧ d' = d := by
  cases hc : alloc_ctx h s.per_ctx_size.length with
  | mk octx h1 =>
    cases octx with
    | none =>
      simp only [kdump_clone, hc, Prod.mk.injEq, true_and] at hrun
      exact ⟨hrun.1.symm, hrun.2.1.symm, hrun.2.2.1.symm⟩
    | some ctx0 =>
      cases hcs : cloneSlots h1 ctx0.data 0 s.per_ctx_size with
      | mk o h'' =>
        cases o with
        | some data' =>
          simp only [kdump_clone, hc, hcs] at hrun
          cases hrun
        | none =>
          simp only [kdump_clone, hc, hcs, Prod.mk.injEq, true_and] at hrun
          exact ⟨hrun.1.symm, hrun.2.1.symm, hrun.2.2.1.symm⟩

lemma kdump_clone_none {h : Heap} {s : kdump_shared} {x : kdump_xlat} {d : Dict}
    {orig : kdump_ctx_t} {s' : kdump_shared} {x' : kdump_xlat} {d' : Dict} {h' : Heap}
    (hw : h.wf)
    (hrun : kdump_clone h s x d orig = (none, s', x', d', h')) :
    s' = s ∧ x' = x ∧ d' = d ∧ ∀ q, h'.blocks q = h.blocks q := by
  cases hc : alloc_ctx h s.per_ctx_size.length with
  | mk octx h1 =>
    cases octx with
    | none =>
      simp only [kdump_clone, hc, Prod.mk.injEq, true_and] at hrun
      obtain ⟨hs', hx', hd', hh'⟩ := hrun
      subst hs' hx' hd' hh'
      exact ⟨rfl, rfl, rfl, (alloc_ctx_none hw hc).1⟩
    | some ctx0 =>
      obtain ⟨hctx0, hh1⟩ := alloc_ctx_some hc
      cases hcs : cloneSlots h1 ctx0.data 0 s.per_ctx_size with
      | mk o h'' =>
        cases o with
        | some data' =>
          simp only [kdump_clone, hc, hcs] at hrun
          cases hrun
        | none =>
          simp only [kdump_clone, hc, hcs, Prod.mk.injEq, true_and] at hrun
          obtain ⟨hs', hx', hd', hh'⟩ := hrun
          subst hs' hx' hd' hh'
          have hbound : 0 + s.per_ctx_size.length ≤ ctx0.data.length := by
            subst hctx0
            simp
          obtain ⟨hb, -, -⟩ := cloneSlots_none s.per_ctx_size h1 ctx0.data 0 h''
            (by subst hh1; exact Heap.wf_bump (Heap.wf_bump hw 1) 1) hbound hcs
          refine ⟨rfl, rfl, rfl, ?_⟩
          intro q
          subst hctx0
          simp only [addrxlat_ctx_decref, Heap.free_blocks]
          by_cases hq0 : q = h.next
          · subst hq0
            rw [if_pos rfl, (hw h.next (Nat.le_refl _)).symm]
          · rw [if_neg hq0]
            by_cases hq1 : q = h.next + 1
            · subst hq1
              rw [if_pos rfl, (hw (h.next + 1) (by omega)).symm]
            · rw [if_neg hq1, hb q]
              subst hh1
              simp only [Heap.bump_blocks, Heap.bump_next]
              rw [if_neg hq1, if_neg hq0]

lemma kdump_clone_some {h : Heap} {s : kdump_shared} {x : kdump_xlat} {d : Dict}
    {orig ctx' : kdump_ctx_t} {s' : kdump_shared} {x' : kdump_xlat} {d' : Dict}
    {h' : Heap}
    (hrun : kdump_clone h s x d orig = (some ctx', s', x', d', h')) :
    ∃ data',
      ctx' = ⟨h.next, h.next + 1, data'⟩ ∧
      s' = ⟨s.self, s.refcnt + 1, s.per_ctx_size, ctx' :: s.ctxs⟩ ∧
      x' = ⟨x.self, x.refcnt + 1, h.next :: x.ctxs⟩ ∧
      d' = ⟨d.self, d.refcnt + 1⟩ ∧
      cloneSlots ((h.bump 1).bump 1) (List.replicate s.per_ctx_size.length none) 0
        s.per_ctx_size = (some data', h') := by
  cases hc : alloc_ctx h s.per_ctx_size.length with
  | mk octx h1 =>
    cases octx with
    | none => simp only [kdump_clone, hc] at hrun; cases hrun
    | some ctx0 =>
      obtain ⟨hctx0, hh1⟩ := alloc_ctx_some hc
      cases hcs : cloneSlots h1 ctx0.data 0 s.per_ctx_size with
      | mk o h'' =>
        cases o with
        | none => simp only [kdump_clone, hc, hcs] at hrun; cases hrun
        | some data' =>
          simp only [kdump_clone, hc, hcs, Prod.mk.injEq, Option.some.injEq] at hrun
          obtain ⟨hctx', hs', hx', hd', hh'⟩ := hrun
          subst hctx'
          subst hs' hx' hd' hh'
          subst hctx0
          refine ⟨data', by simp, ?_, ?_, ?_, ?_⟩
          · simp [shared_incref_locked]
          · simp [xlat_incref]
          · simp [attr_dict_incref]
          · subst hh1
            simpa using hcs

lemma freeOpt_blocks_none {h : Heap} {q : Nat} (o : Option Nat)
    (hq : h.blocks q = none) : (h.freeOpt o).blocks q = none := by
  cases o with
  | none => exact hq
  | some p =>
    simp only [Heap.freeOpt, Heap.free_blocks]
    by_cases hqp : q = p
    · rw [if_pos hqp]
    · rw [if_neg hqp]; exact hq

lemma freeOpt_blocks_ne {h : Heap} {q : Nat} {o : Option Nat}
    (ho : o ≠ some q) : (h.freeOpt o).blocks q = h.blocks q := by
  cases o with
  | none => rfl
  | some p =>
    simp only [Heap.freeOpt, Heap.free_blocks]
    rw [if_neg (fun e => ho (by rw [e]))]

lemma freeFold_none_pres (slot : Nat) : ∀ (cs : List kdump_ctx_t) (h : Heap) (q : Nat),
    h.blocks q = none →
    ((cs.foldl (fun hh c => hh.freeOpt (c.data.getD slot none)) h).blocks q) = none := by
  intro cs
  induction cs with
  | nil => intro h q hq; exact hq
  | cons c cs ih =>
    intro h q hq
    exact ih _ q (freeOpt_blocks_none _ hq)

lemma freeFold_hit (slot : Nat) : ∀ (cs : List kdump_ctx_t) (h : Heap) (j : Nat),
    j < cs.length →
    ∀ p, (cs.getD j default).data.getD slot none = some p →
    ((cs.foldl (fun hh c => hh.freeOpt (c.data.getD slot none)) h).blocks p) = none := by
  intro cs
  induction cs with
  | nil => intro h j hj; simp at hj
  | cons c cs ih =>
    intro h j hj p hp
    cases j with
    | zero =>
      simp only [List.getD_cons_zero] at hp
      rw [List.foldl_cons]
      apply freeFold_none_pres
      rw [hp]
      simp [Heap.freeOpt, Heap.free_blocks]
    | succ j' =>
      simp only [List.getD_cons_succ] at hp
      rw [List.foldl_cons]
      exact ih _ j' (by simpa using hj) p hp

lemma freeFold_miss (slot : Nat) : ∀ (cs : List kdump_ctx_t) (h : Heap) (q : Nat),
    (∀ j, j < cs.length → (cs.getD j default).data.getD slot none ≠ some q) →
    ((cs.foldl (fun hh c => hh.freeOpt (c.data.getD slot none)) h).blocks q) =
      h.blocks q := by
  intro cs
  induction cs with
  | nil => intro h q _; rfl
  | cons c cs ih =>
    intro h q hmiss
    have hhead : c.data.getD slot none ≠ some q := by
      have := hmiss 0 (by simp)
      simpa using this
    rw [List.foldl_cons]
    rw [ih _ q (fun j hj => by
      have := hmiss (j + 1) (by simpa using hj)
      simpa using this)]
    exact freeOpt_blocks_ne hhead

lemma regStep_inv (st : RegSt) (op : RegOp) (hv : regValidB st op = true)
    (hi : regInv st) : regInv (regStep st op) := by
  cases op with
  | acquire =>
    cases hsh : st.sh with
    | none => simpa [regStep, hsh] using hi
    | some s =>
      obtain ⟨h1, h2⟩ := hi s hsh
      have hred : regStep st RegOp.acquire =
          { st with sh := some (shared_incref s).2, ext := st.ext + 1 } := by
        simp [regStep, hsh]
      rw [hred]
      intro s' hs'
      simp only [Option.some.injEq] at hs'
      subst hs'
      refine ⟨?_, by simp only [shared_incref, shared_incref_locked]; omega⟩
      simp only [shared_incref, shared_incref_locked]
      omega
  | release =>
    cases hsh : st.sh with
    | none => simpa [regStep, hsh] using hi
    | some s =>
      obtain ⟨h1, h2⟩ := hi s hsh
      have hext : 0 < st.ext := by simpa [regValidB] using hv
      cases hr : s.refcnt - 1 with
      | zero =>
        have hred : regStep st RegOp.release =
            { st with sh := none, heap := shared_free st.heap s,
                      ext := st.ext - 1 } := by
          simp [regStep, hsh, shared_decref, shared_decref_locked, hr]
        rw [hred]
        intro s' hs'
        cases hs'
      | succ r =>
        have hred : regStep st RegOp.release =
            { st with sh := some { s with refcnt := r + 1 }, heap := st.heap,
                      ext := st.ext - 1 } := by
          simp [regStep, hsh, shared_decref, shared_decref_locked, hr]
        rw [hred]
        intro s' hs'
        simp only [Option.some.injEq] at hs'
        subst hs'
        simp only
        omega
  | clone =>
    cases hsh : st.sh with
    | none => simpa [regStep, hsh] using hi
    | some s =>
      obtain ⟨h1, h2⟩ := hi s hsh
      cases hcl : s.ctxs with
      | nil =>
        have hred : regStep st RegOp.clone = st := by
          simp [regStep, hsh, hcl]
        rw [hred]
        exact hi
      | cons c rest =>
        cases hrun : kdump_clone st.heap s st.x st.d c with
        | mk o r =>
          obtain ⟨s2, x2, d2, h2'⟩ := r
          have hred : regStep st RegOp.clone =
              { st with sh := some s2, x := x2, d := d2, heap := h2' } := by
            simp [regStep, hsh, hcl, hrun]
          rw [hred]
          intro s' hs'
          simp only [Option.some.injEq] at hs'
          subst hs'
          cases o with
          | none =>
            obtain ⟨hs2, -, -⟩ := kdump_clone_none_state hrun
            subst hs2
            exact ⟨h1, h2⟩
          | some ctx' =>
            obtain ⟨data', hctx', hs2, -, -, -⟩ := kdump_clone_some hrun
            subst hs2
            simp only [List.length_cons]
            constructor
            · omega
            · omega
  | destroy =>
    cases hsh : st.sh with
    | none => simpa [regStep, hsh] using hi
    | some s =>
      obtain ⟨h1, h2⟩ := hi s hsh
      cases hcl : s.ctxs with
      | nil =>
        have hred : regStep st RegOp.destroy = { st with sh := some s } := by
          simp [regStep, hsh, kdump_free_head, hcl]
        rw [hred]
        intro s' hs'
        simp only [Option.some.injEq] at hs'
        subst hs'
        exact ⟨h1, h2⟩
      | cons c rest =>
        cases hr : s.refcnt - 1 with
        | zero =>
          have hred : (regStep st RegOp.destroy).sh = none := by
            simp [regStep, hsh, kdump_free_head, hcl, shared_decref,
                  shared_decref_locked, hr]
          intro s' hs'
          rw [hred] at hs'
          cases hs'
        | succ r =>
          have hred : (regStep st RegOp.destroy).sh =
              some { s with ctxs := rest, refcnt := r + 1 } ∧
              (regStep st RegOp.destroy).ext = st.ext := by
            constructor
            · simp [regStep, hsh, kdump_free_head, hcl, shared_decref,
                    shared_decref_locked, hr]
            · simp [regStep, hsh, kdump_free_head, hcl]
          intro s' hs'
          rw [hred.1] at hs'
          simp only [Option.some.injEq] at hs'
          subst hs'
          rw [hred.2]
          simp only
          rw [hcl] at h1
          simp only [List.length_cons] at h1
          omega

lemma list_getD_mem {α : Type} : ∀ (l : List α) (j : Nat) (d : α),
    j < l.length → l.getD j d ∈ l := by
  intro l
  induction l with
  | nil => intro j d hj; simp at hj
  | cons a as ih =>
    intro j d hj
    cases j with
    | zero => simp
    | succ j' =>
      simp only [List.getD_cons_succ]
      exact List.mem_cons_of_mem a (ih j' d (by simpa using hj))

lemma list_getD_ge {α : Type} : ∀ (l : List α) (i : Nat) (d : α),
    l.length ≤ i → l.getD i d = d := by
  intro l
  induction l with
  | nil => intro i d _; simp
  | cons a as ih =>
    intro i d hi
    cases i with
    | zero => simp at hi
    | succ i' => simpa using ih i' d (by simpa using hi)

lemma list_getD_replicate {α : Type} : ∀ (n i : Nat) (d : α),
    (List.replicate n d).getD i d = d := by
  intro n
  induction n with
  | zero => intro i d; simp
  | succ n' ih =>
    intro i d
    cases i with
    | zero => simp [List.replicate]
    | succ i' => simpa [List.replicate] using ih i' d

/-! ## C7: `kdump_strerror` is total -/

/-- C7: `kdump_strerror` maps each of the ten defined status codes to its
specific non-empty string and every other code to the generic fallback,
with no failure mode (it is a total function). -/
theorem kdump_strerror_total :
    kdump_strerror KDUMP_OK = "Success" ∧
    kdump_strerror KDUMP_ERR_SYSTEM = "OS error" ∧
    kdump_strerror KDUMP_ERR_NOTIMPL = "Unimplemented feature" ∧
    kdump_strerror KDUMP_ERR_NODATA = "Data is not stored in the dump file" ∧
    kdump_strerror KDUMP_ERR_CORRUPT = "Corrupted file data" ∧
    kdump_strerror KDUMP_ERR_INVALID = "Invalid value" ∧
    kdump_strerror KDUMP_ERR_NOKEY = "No such attribute key" ∧
    kdump_strerror KDUMP_ERR_EOF = "Unexpected EOF" ∧
    kdump_strerror KDUMP_ERR_BUSY = "Too many pending requests" ∧
    kdump_strerror KDUMP_ERR_ADDRXLAT = "Address translation error" ∧
    (∀ c, kdump_strerror c ≠ "") ∧
    (∀ c, (∀ k, k ≤ KDUMP_ERR_ADDRXLAT → c ≠ k) →
      kdump_strerror c = "Unknown error") := by
  refine ⟨rfl, rfl, rfl, rfl, rfl, rfl, rfl, rfl, rfl, rfl, ?_, ?_⟩
  · intro c
    unfold kdump_strerror
    split_ifs <;> simp
  · intro c hc
    unfold kdump_strerror
    rw [if_neg (hc KDUMP_OK (by decide)), if_neg (hc KDUMP_ERR_SYSTEM (by decide)),
        if_neg (hc KDUMP_ERR_NOTIMPL (by decide)), if_neg (hc KDUMP_ERR_NODATA (by decide)),
        if_neg (hc KDUMP_ERR_CORRUPT (by decide)), if_neg (hc KDUMP_ERR_INVALID (by decide)),
        if_neg (hc KDUMP_ERR_NOKEY (by decide)), if_neg (hc KDUMP_ERR_EOF (by decide)),
        if_neg (hc KDUMP_ERR_BUSY (by decide)), if_neg (hc KDUMP_ERR_ADDRXLAT (by decide))]

/-- Witness for C7 at the concrete out-of-range code 42. -/
theorem kdump_strerror_total_witness :
    kdump_strerror 42 = "Unknown error" ∧ kdump_strerror 42 ≠ "" :=
  ⟨(kdump_strerror_total.2.2.2.2.2.2.2.2.2.2.2) 42 (fun k hk => by
      revert hk
      unfold KDUMP_ERR_ADDRXLAT
      omega),
   (kdump_strerror_total.2.2.2.2.2.2.2.2.2.2.1) 42⟩

/-! ## C6: `per_ctx_free` -/

/-- C6 (amended): `per_ctx_free` resets the slot's table entry to zero
and frees every attached context's buffer at that index, but it leaves
every context's slot-pointer array unchanged (the freed pointers are not
reset to null). -/
theorem per_ctx_free_spec (h : Heap) (s : kdump_shared) (slot : Nat) :
    (per_ctx_free h s slot).1.per_ctx_size = s.per_ctx_size.set slot 0 ∧
    (per_ctx_free h s slot).1.ctxs = s.ctxs ∧
    (∀ j, j < s.ctxs.length → ∀ p,
      (s.ctxs.getD j default).data.getD slot none = some p →
      (per_ctx_free h s slot).2.blocks p = none) ∧
    (∀ q, (∀ j, j < s.ctxs.length →
        (s.ctxs.getD j default).data.getD slot none ≠ some q) →
      (per_ctx_free h s slot).2.blocks q = h.blocks q) := by
  refine ⟨rfl, rfl, ?_, ?_⟩
  · intro j hj p hp
    exact freeFold_hit slot s.ctxs h j hj p hp
  · intro q hq
    exact freeFold_miss slot s.ctxs h q hq

/-- Witness for C6's amended theorem: freeing slot 0 of `shUsed` frees
buffer 5 and keeps the table entry at zero. -/
theorem per_ctx_free_spec_witness :
    (per_ctx_free heapUsed shUsed 0).2.blocks 5 = none ∧
    (per_ctx_free heapUsed shUsed 0).1.ctxs = shUsed.ctxs :=
  ⟨(per_ctx_free_spec heapUsed shUsed 0).2.2.1 0 (by decide) 5 (by decide),
   (per_ctx_free_spec heapUsed shUsed 0).2.1⟩

/-- Counterexample to C6 as stated: after `per_ctx_free(shared, 0)` the
attached context's slot-pointer array still shows the old non-null
pointer at index 0, not a null pointer (the table entry is zero, so the
slot is free, but the pointer is left dangling). -/
theorem per_ctx_free_counterexample :
    ((per_ctx_free heapUsed shUsed 0).1.ctxs.getD 0 default).data.getD 0 none ≠ none ∧
    (per_ctx_free heapUsed shUsed 0).1.per_ctx_size.getD 0 0 = 0 := by
  constructor
  · decide
  · decide

/-! ## C1: `per_ctx_alloc` success and rollback -/

/-- Counterexample to C1 as stated: on `shAB` (two attached contexts,
slot arrays all null) with an allocator that grants the first buffer and
refuses the second, `per_ctx_alloc(shared, 8)` fails — but the first
context's slot-pointer array is no longer equal to its value before the
call: it now holds a (dangling) pointer to the freed buffer. -/
theorem per_ctx_alloc_counterexample :
    (per_ctx_alloc heapF1 shAB 8).1 = Except.error AllocErr.enomem ∧
    ((per_ctx_alloc heapF1 shAB 8).2.1.ctxs.getD 0 default).data ≠
      (shAB.ctxs.getD 0 default).data := by
  constructor
  · rfl
  · decide

/-- C1 (amended): with `sz > 0`, `per_ctx_alloc` either succeeds,
returning a slot index at which each of the K attached contexts holds a
distinct newly allocated buffer of `sz` bytes, or fails; on failure the
slot-size table and the heap are exactly as before the call (every
granted buffer is freed again), but the slot-pointer entries of the
contexts iterated before the failure point are overwritten: each is
either unchanged, null, or a dangling pointer to a freed fresh block. -/
theorem per_ctx_alloc_all_or_nothing (h : Heap) (s : kdump_shared) (sz : Nat)
    (e : Except AllocErr Nat) (s' : kdump_shared) (h' : Heap)
    (hw : h.wf) (hsz : 0 < sz)
    (hlens : ∀ c ∈ s.ctxs, c.data.length = s.per_ctx_size.length)
    (hrun : per_ctx_alloc h s sz = (e, s', h')) :
    (∀ slot, e = Except.ok slot →
      s'.ctxs.length = s.ctxs.length ∧
      (∀ j, j < s.ctxs.length →
        (s'.ctxs.getD j default).data.getD slot none = some (h.next + j) ∧
        h'.blocks (h.next + j) = some sz ∧ h.blocks (h.next + j) = none) ∧
      (∀ j k, j < s.ctxs.length → k < s.ctxs.length → j ≠ k →
        (s'.ctxs.getD j default).data.getD slot none ≠
          (s'.ctxs.getD k default).data.getD slot none)) ∧
    (e = Except.error AllocErr.eagain → s' = s ∧ h' = h) ∧
    (e = Except.error AllocErr.enomem →
      s'.per_ctx_size = s.per_ctx_size ∧
      (∀ q, h'.blocks q = h.blocks q) ∧
      s'.ctxs.length = s.ctxs.length ∧
      ∃ slot, firstFreeSlot s.per_ctx_size = some slot ∧
        (∀ j i, i ≠ slot →
          (s'.ctxs.getD j default).data.getD i none =
            (s.ctxs.getD j default).data.getD i none) ∧
        (∀ j,
          (s'.ctxs.getD j default).data.getD slot none =
              (s.ctxs.getD j default).data.getD slot none ∨
          (s'.ctxs.getD j default).data.getD slot none = none ∨
          ∃ p, (s'.ctxs.getD j default).data.getD slot none = some p ∧
               h'.blocks p = none ∧ h.next ≤ p)) := by
  cases hff : firstFreeSlot s.per_ctx_size with
  | none =>
    rw [show per_ctx_alloc h s sz = (Except.error AllocErr.eagain, s, h) by
      simp [per_ctx_alloc, hff]] at hrun
    obtain ⟨he, hs', hh'⟩ : e = Except.error AllocErr.eagain ∧ s' = s ∧ h' = h := by
      have h1 := congrArg Prod.fst hrun
      have h2 := congrArg (fun t => t.2.1) hrun
      have h3 := congrArg (fun t => t.2.2) hrun
      exact ⟨h1.symm, h2.symm, h3.symm⟩
    subst he hs' hh'
    refine ⟨?_, ?_, ?_⟩
    · intro slot hslot
      cases hslot
    · intro _
      exact ⟨rfl, rfl⟩
    · intro habs
      cases habs
  | some slot =>
    obtain ⟨hslt, hsl0, hslfirst⟩ := firstFreeSlot_some_spec s.per_ctx_size slot hff
    cases hal : allocLoop sz slot h s.ctxs with
    | mk b rest =>
      obtain ⟨ctxs', h''⟩ := rest
      cases b with
      | true =>
        rw [show per_ctx_alloc h s sz =
            (Except.ok slot,
             { s with per_ctx_size := s.per_ctx_size.set slot sz, ctxs := ctxs' },
             h'') by simp [per_ctx_alloc, hff, hal]] at hrun
        obtain ⟨he, hs', hh'⟩ :
            e = Except.ok slot ∧
            s' = { s with per_ctx_size := s.per_ctx_size.set slot sz, ctxs := ctxs' } ∧
            h' = h'' := by
          have h1 := congrArg Prod.fst hrun
          have h2 := congrArg (fun t => t.2.1) hrun
          have h3 := congrArg (fun t => t.2.2) hrun
          exact ⟨h1.symm, h2.symm, h3.symm⟩
        subst he hs'
        rw [← hh'] at hal
        obtain ⟨hstamp, hnext, hcnt, hplan, hblocks⟩ :=
          allocLoop_true_eq sz slot s.ctxs h ctxs' h' hal
        have hgd : ∀ j, j < s.ctxs.length →
            (ctxs'.getD j default).data.getD slot none = some (h.next + j) := by
          intro j hj
          rw [hstamp, stamp_getD slot s.ctxs h.next j hj]
          simp only
          apply list_getD_set_eq
          rw [hlens (s.ctxs.getD j default) (list_getD_mem s.ctxs j default hj)]
          exact hslt
        refine ⟨?_, ?_, ?_⟩
        · intro slot2 hslot2
          have hse : slot = slot2 := by injection hslot2
          subst hse
          refine ⟨?_, fun j hj => ?_, fun j k hj hk hjk => ?_⟩
          · simp only
            rw [hstamp, stamp_length]
          · refine ⟨hgd j hj, ?_, hw (h.next + j) (by omega)⟩
            rw [hblocks (h.next + j), if_pos (by constructor <;> omega)]
          · simp only
            rw [hgd j hj, hgd k hk]
            intro heq
            injection heq with heq
            omega
        · intro habs
          cases habs
        · intro habs
          cases habs
      | false =>
        rw [show per_ctx_alloc h s sz =
            (Except.error AllocErr.enomem,
             { s with per_ctx_size := (s.per_ctx_size.set slot sz).set slot 0,
                      ctxs := ctxs' },
             h'') by simp [per_ctx_alloc, hff, hal]] at hrun
        obtain ⟨he, hs', hh'⟩ :
            e = Except.error AllocErr.enomem ∧
            s' = { s with per_ctx_size := (s.per_ctx_size.set slot sz).set slot 0,
                          ctxs := ctxs' } ∧
            h' = h'' := by
          have h1 := congrArg Prod.fst hrun
          have h2 := congrArg (fun t => t.2.1) hrun
          have h3 := congrArg (fun t => t.2.2) hrun
          exact ⟨h1.symm, h2.symm, h3.symm⟩
        subst he hs'
        rw [← hh'] at hal
        obtain ⟨hbl, hplan, hnext, hlen, hpt, hsl⟩ :=
          allocLoop_false_eq sz slot s.per_ctx_size.length s.ctxs h ctxs' h'
            hw hslt hlens hal
        have htbl : (s.per_ctx_size.set slot sz).set slot 0 = s.per_ctx_size := by
          rw [List.set_set]
          exact list_set_zero_self s.per_ctx_size slot hsl0
        refine ⟨?_, ?_, ?_⟩
        · intro slot2 habs
          cases habs
        · intro habs
          cases habs
        · intro _
          exact ⟨by simp only; rw [htbl], hbl, by simpa using hlen,
                 slot, rfl, fun j i hi => hpt j i hi, hsl⟩

/-- Witness for C1's amended theorem: on `shOne` (one context, empty
slot) with an always-succeeding allocator, `per_ctx_alloc` of size 5
succeeds and the context receives the fresh live buffer 20 of size 5. -/
theorem per_ctx_alloc_all_or_nothing_witness :
    ((per_ctx_alloc heapT shOne 5).2.1.ctxs.getD 0 default).data.getD 0 none =
      some 20 ∧
    (per_ctx_alloc heapT shOne 5).2.2.blocks 20 = some 5 := by
  have happ := per_ctx_alloc_all_or_nothing heapT shOne 5
    (per_ctx_alloc heapT shOne 5).1 (per_ctx_alloc heapT shOne 5).2.1
    (per_ctx_alloc heapT shOne 5).2.2 (fun p _ => rfl) (by decide)
    (by decide) rfl
  obtain ⟨hok, -, -⟩ := happ
  obtain ⟨-, hj, -⟩ := hok 0 rfl
  obtain ⟨h1, h2, -⟩ := hj 0 (by decide)
  exact ⟨h1, h2⟩

/-! ## C8: first-fit slot selection and the full-table failure -/

/-- C8: `per_ctx_alloc` assigns the lowest-numbered slot index whose
table entry is zero; when every entry is nonzero (the table is full) it
fails with the `EAGAIN` condition and leaves the registry and the heap
untouched. -/
theorem per_ctx_alloc_first_fit (h : Heap) (s : kdump_shared) (sz : Nat)
    (e : Except AllocErr Nat) (s' : kdump_shared) (h' : Heap)
    (hrun : per_ctx_alloc h s sz = (e, s', h')) :
    ((∀ j, j < s.per_ctx_size.length → s.per_ctx_size.getD j 0 ≠ 0) →
      e = Except.error AllocErr.eagain ∧ s' = s ∧ h' = h) ∧
    (∀ slot, e = Except.ok slot →
      slot < s.per_ctx_size.length ∧ s.per_ctx_size.getD slot 0 = 0 ∧
      ∀ j, j < slot → s.per_ctx_size.getD j 0 ≠ 0) := by
  cases hff : firstFreeSlot s.per_ctx_size with
  | none =>
    rw [show per_ctx_alloc h s sz = (Except.error AllocErr.eagain, s, h) by
      simp [per_ctx_alloc, hff]] at hrun
    obtain ⟨he, hs', hh'⟩ : e = Except.error AllocErr.eagain ∧ s' = s ∧ h' = h := by
      have h1 := congrArg Prod.fst hrun
      have h2 := congrArg (fun t => t.2.1) hrun
      have h3 := congrArg (fun t => t.2.2) hrun
      exact ⟨h1.symm, h2.symm, h3.symm⟩
    subst he hs' hh'
    refine ⟨fun _ => ⟨rfl, rfl, rfl⟩, ?_⟩
    intro slot habs
    cases habs
  | some slot =>
    obtain ⟨hslt, hsl0, hslfirst⟩ := firstFreeSlot_some_spec s.per_ctx_size slot hff
    refine ⟨?_, ?_⟩
    · intro hall
      exact absurd hsl0 (hall slot hslt)
    · intro slot2 he
      cases hal : allocLoop sz slot h s.ctxs with
      | mk b rest =>
        obtain ⟨ctxs', h''⟩ := rest
        cases b with
        | true =>
          rw [show per_ctx_alloc h s sz =
              (Except.ok slot,
               { s with per_ctx_size := s.per_ctx_size.set slot sz, ctxs := ctxs' },
               h'') by simp [per_ctx_alloc, hff, hal]] at hrun
          have h1 := congrArg Prod.fst hrun
          simp only at h1
          rw [← h1] at he
          have hse : slot = slot2 := by injection he
          subst hse
          exact ⟨hslt, hsl0, hslfirst⟩
        | false =>
          rw [show per_ctx_alloc h s sz =
              (Except.error AllocErr.enomem,
               { s with per_ctx_size := (s.per_ctx_size.set slot sz).set slot 0,
                        ctxs := ctxs' },
               h'') by simp [per_ctx_alloc, hff, hal]] at hrun
          have h1 := congrArg Prod.fst hrun
          simp only at h1
          rw [← h1] at he
          cases he

/-- Witness for C8: on the full table `shFull` the call fails with
`EAGAIN` and changes nothing; on `shAB` (entry 0 free) a successful call
returns slot 0. -/
theorem per_ctx_alloc_first_fit_witness :
    (per_ctx_alloc heapT shFull 3).1 = Except.error AllocErr.eagain ∧
    (per_ctx_alloc heapT shFull 3).2.1 = shFull ∧
    (per_ctx_alloc heapT shFull 3).2.2 = heapT ∧
    0 < shAB.per_ctx_size.length ∧ shAB.per_ctx_size.getD 0 0 = 0 := by
  have happ := per_ctx_alloc_first_fit heapT shFull 3
    (per_ctx_alloc heapT shFull 3).1 (per_ctx_alloc heapT shFull 3).2.1
    (per_ctx_alloc heapT shFull 3).2.2 rfl
  obtain ⟨hfull, -⟩ := happ
  obtain ⟨he, hs, hh⟩ := hfull (by decide)
  have happ2 := per_ctx_alloc_first_fit heapT shAB 3
    (per_ctx_alloc heapT shAB 3).1 (per_ctx_alloc heapT shAB 3).2.1
    (per_ctx_alloc heapT shAB 3).2.2 rfl
  obtain ⟨-, hok⟩ := happ2
  obtain ⟨hlt, hz, -⟩ := hok 0 rfl
  exact ⟨he, hs, hh, hlt, hz⟩

/-! ## C9: a size-zero slot stays marked free -/

/-- C9: `per_ctx_alloc` with size 0 (all allocations succeeding)
succeeds and returns the first free index, hands a buffer to every
attached context at that index — and yet the slot-size table is exactly
as before (the entry stays 0, the slot still counts as free), so a
subsequent `per_ctx_alloc` of any size returns the very same index
again. -/
theorem per_ctx_alloc_size_zero (h : Heap) (s : kdump_shared) (i : Nat)
    (hpl : ∀ n, h.plan n = true)
    (hff : firstFreeSlot s.per_ctx_size = some i)
    (hlens : ∀ c ∈ s.ctxs, c.data.length = s.per_ctx_size.length) :
    (per_ctx_alloc h s 0).1 = Except.ok i ∧
    (per_ctx_alloc h s 0).2.1.per_ctx_size = s.per_ctx_size ∧
    (∀ j, j < s.ctxs.length →
      (((per_ctx_alloc h s 0).2.1.ctxs.getD j default).data.getD i none).isSome) ∧
    (∀ sz2, (per_ctx_alloc (per_ctx_alloc h s 0).2.2 (per_ctx_alloc h s 0).2.1
      sz2).1 = Except.ok i) := by
  obtain ⟨hslt, hsl0, -⟩ := firstFreeSlot_some_spec s.per_ctx_size i hff
  cases hal : allocLoop 0 i h s.ctxs with
  | mk b rest =>
    obtain ⟨ctxs', h''⟩ := rest
    have hb : b = true := by
      have := allocLoop_all_true 0 i s.ctxs h hpl
      rw [hal] at this
      exact this
    subst hb
    have hred : per_ctx_alloc h s 0 =
        (Except.ok i,
         { s with per_ctx_size := s.per_ctx_size.set i 0, ctxs := ctxs' }, h'') := by
      simp [per_ctx_alloc, hff, hal]
    obtain ⟨hstamp, hnext, hcnt, hplan, hblocks⟩ :=
      allocLoop_true_eq 0 i s.ctxs h ctxs' h'' hal
    have htbl : s.per_ctx_size.set i 0 = s.per_ctx_size :=
      list_set_zero_self s.per_ctx_size i hsl0
    refine ⟨by rw [hred], by rw [hred]; simp only; rw [htbl], ?_, ?_⟩
    · intro j hj
      rw [hred]
      simp only
      rw [hstamp, stamp_getD i s.ctxs h.next j hj]
      simp only
      rw [list_getD_set_eq _ _ _ _ (by
        rw [hlens (s.ctxs.getD j default) (list_getD_mem s.ctxs j default hj)]
        exact hslt)]
      rfl
    · intro sz2
      rw [hred]
      simp only
      rw [htbl]
      cases hal2 : allocLoop sz2 i h'' ctxs' with
      | mk b2 rest2 =>
        obtain ⟨ctxs2, h2⟩ := rest2
        have hb2 : b2 = true := by
          have := allocLoop_all_true sz2 i ctxs' h'' (by
            intro m
            rw [hplan]
            exact hpl m)
          rw [hal2] at this
          exact this
        subst hb2
        simp [per_ctx_alloc, hff, hal2]

/-- Witness for C9 on `shOne` with the always-succeeding allocator. -/
theorem per_ctx_alloc_size_zero_witness :
    (per_ctx_alloc heapT shOne 0).1 = Except.ok 0 ∧
    (per_ctx_alloc heapT shOne 0).2.1.per_ctx_size = shOne.per_ctx_size ∧
    (per_ctx_alloc (per_ctx_alloc heapT shOne 0).2.2
      (per_ctx_alloc heapT shOne 0).2.1 7).1 = Except.ok 0 := by
  have happ := per_ctx_alloc_size_zero heapT shOne 0 (fun n => rfl) rfl (by decide)
  exact ⟨happ.1, happ.2.1, happ.2.2.2 7⟩

/-- C4: `kdump_clone` allocates, for every slot index whose size-table
entry is nonzero, a live buffer of exactly the recorded size; and when
any allocation fails it returns no context, frees everything it
allocated (the heap's live blocks are exactly as before, including the
just-created translation coordinate-system handle and the context
block), and leaves the shared registry, translation domain and
dictionary — in particular both context lists — untouched. -/
theorem kdump_clone_rollback (h : Heap) (s : kdump_shared) (x : kdump_xlat)
    (d : Dict) (orig : kdump_ctx_t) (hw : h.wf) :
    (∀ s' x' d' h', kdump_clone h s x d orig = (none, s', x', d', h') →
      s' = s ∧ x' = x ∧ d' = d ∧ ∀ q, h'.blocks q = h.blocks q) ∧
    (∀ ctx' s' x' d' h', kdump_clone h s x d orig = (some ctx', s', x', d', h') →
      ∀ i, i < s.per_ctx_size.length → s.per_ctx_size.getD i 0 ≠ 0 →
        ∃ p, ctx'.data.getD i none = some p ∧
          h'.blocks p = some (s.per_ctx_size.getD i 0)) := by
  constructor
  · intro s' x' d' h' hrun
    exact kdump_clone_none hw hrun
  · intro ctx' s' x' d' h' hrun i hi hnz
    obtain ⟨data', hctx', -, -, -, hcs⟩ := kdump_clone_some hrun
    obtain ⟨-, -, -, -, hmain, -⟩ := cloneSlots_some s.per_ctx_size _ _ 0 data' h'
      (by simp) hcs
    obtain ⟨-, hnzpart⟩ := hmain i hi
    obtain ⟨p, hp1, hp2, hp3⟩ := hnzpart hnz
    subst hctx'
    exact ⟨p, by simpa using hp1, by simpa using hp3⟩

/-- Witness for C4: with an allocator granting exactly the context block
and the translation handle and then failing, the clone of a context
under `shUsed` (slot 0 in use, size 8) fails and restores everything:
the registry is untouched and the two blocks just allocated (30 and 31)
are free again. -/
theorem kdump_clone_rollback_witness :
    (kdump_clone heapF2 shUsed xW dW origUsed).2.1 = shUsed ∧
    (kdump_clone heapF2 shUsed xW dW origUsed).2.2.1 = xW ∧
    (kdump_clone heapF2 shUsed xW dW origUsed).2.2.2.2.blocks 30 =
      heapF2.blocks 30 := by
  have happ := (kdump_clone_rollback heapF2 shUsed xW dW origUsed (fun p _ => rfl)).1
    (kdump_clone heapF2 shUsed xW dW origUsed).2.1
    (kdump_clone heapF2 shUsed xW dW origUsed).2.2.1
    (kdump_clone heapF2 shUsed xW dW origUsed).2.2.2.1
    (kdump_clone heapF2 shUsed xW dW origUsed).2.2.2.2 rfl
  exact ⟨happ.1, happ.2.1, happ.2.2.2 30⟩

/-! ## C10: clones get fresh private state -/

/-- C10: a successful `kdump_clone` gives the new context its own
context block (which holds its error channel) and its own translation
coordinate-system handle, both distinct from the original's, and for
every used slot index a freshly allocated buffer — live afterwards, not
allocated before the call, and a different pointer from the original
context's buffer at that index (nothing is copied: the model performs no
write into the new buffer). -/
theorem kdump_clone_fresh (h : Heap) (s : kdump_shared) (x : kdump_xlat) (d : Dict)
    (orig ctx' : kdump_ctx_t) (s' : kdump_shared) (x' : kdump_xlat) (d' : Dict)
    (h' : Heap) (hw : h.wf)
    (hself : orig.self < h.next) (hxlat : orig.xlatctx < h.next)
    (hbufs : ∀ i p, orig.data.getD i none = some p → p < h.next)
    (hrun : kdump_clone h s x d orig = (some ctx', s', x', d', h')) :
    ctx'.self ≠ orig.self ∧ ctx'.xlatctx ≠ orig.xlatctx ∧
    ∀ i, i < s.per_ctx_size.length → s.per_ctx_size.getD i 0 ≠ 0 →
      ∃ p, ctx'.data.getD i none = some p ∧ h.blocks p = none ∧
        h'.blocks p = some (s.per_ctx_size.getD i 0) ∧
        ctx'.data.getD i none ≠ orig.data.getD i none := by
  obtain ⟨data', hctx', -, -, -, hcs⟩ := kdump_clone_some hrun
  obtain ⟨-, -, -, -, hmain, -⟩ := cloneSlots_some s.per_ctx_size _ _ 0 data' h'
    (by simp) hcs
  refine ⟨by subst hctx'; simp only; omega, by subst hctx'; simp only; omega, ?_⟩
  intro i hi hnz
  obtain ⟨-, hnzpart⟩ := hmain i hi
  obtain ⟨p, hp1, hp2, hp3⟩ := hnzpart hnz
  have hp2' : h.next + 2 ≤ p := by simpa using hp2
  have hdata : ctx'.data.getD i none = some p := by
    subst hctx'
    simpa using hp1
  refine ⟨p, hdata, hw p (by omega), by simpa using hp3, ?_⟩
  rw [hdata]
  cases horig : orig.data.getD i none with
  | none => simp
  | some q =>
    have := hbufs i q horig
    simp only [ne_eq, Option.some.injEq]
    omega

/-- Witness for C10: cloning `origUsed` under `shUsed` with an
always-succeeding allocator produces a context with fresh block 20,
fresh translation handle 21 and a fresh live buffer 22 at slot 0. -/
theorem kdump_clone_fresh_witness :
    (kdump_clone heapT shUsed xW dW origUsed).2.2.2.2.blocks 22 = some 8 ∧
    heapT.blocks 22 = none := by
  have happ := kdump_clone_fresh heapT shUsed xW dW origUsed
    ⟨20, 21, [some 22]⟩
    (kdump_clone heapT shUsed xW dW origUsed).2.1
    (kdump_clone heapT shUsed xW dW origUsed).2.2.1
    (kdump_clone heapT shUsed xW dW origUsed).2.2.2.1
    (kdump_clone heapT shUsed xW dW origUsed).2.2.2.2
    (fun p _ => rfl) (by decide) (by decide)
    (fun i p hp => by
      revert hp
      unfold origUsed
      match i with
      | 0 =>
        intro hp
        injection hp with hp
        subst hp
        decide
      | j + 1 => intro hp; simp at hp)
    rfl
  obtain ⟨-, -, hslots⟩ := happ
  obtain ⟨p, hp1, hp2, hp3, -⟩ := hslots 0 (by decide) (by decide)
  have hp : p = 22 := by
    have : some p = some 22 := by rw [← hp1]; rfl
    injection this
  subst hp
  exact ⟨by simpa using hp3, hp2⟩

/-- C5: whenever `kdump_new` fails (at whichever allocation step), it
returns no context and the heap's live blocks are exactly as before the
call: everything allocated so far has been released again, so no
partially initialized context or shared registry remains. -/
theorem kdump_new_unwind (h : Heap) (n : Nat) (h' : Heap) (hw : h.wf)
    (hrun : kdump_new h n = (none, h')) :
    ∀ q, h'.blocks q = h.blocks q :=
  kdump_new_none hw hrun

/-- Witness for C5 at the heap whose first allocation already fails. -/
theorem kdump_new_unwind_witness :
    (kdump_new heapNone 1).2.blocks 0 = heapNone.blocks 0 :=
  kdump_new_unwind heapNone 1 (kdump_new heapNone 1).2 (fun p _ => rfl) rfl 0

/-! ## C3: the used-slot invariant -/

/-- C3 (amended): after every successful operation of the subsystem —
`kdump_new`, `kdump_clone`, `per_ctx_alloc`, `per_ctx_free` — every
context attached to the registry holds a non-null buffer pointer at
every slot index whose table entry is nonzero (`slotInv`).  The converse
direction of the original claim (null at every free index) is refuted by
`slotInv_counterexample`. -/
theorem slotInv_preserved :
    (∀ (h : Heap) (n : Nat) (ctx : kdump_ctx_t) (sh : kdump_shared) (d : Dict)
        (x : kdump_xlat) (h' : Heap),
      kdump_new h n = (some (ctx, sh, d, x), h') → slotInv sh) ∧
    (∀ (h : Heap) (s : kdump_shared) (x : kdump_xlat) (d : Dict)
        (orig ctx' : kdump_ctx_t) (s' : kdump_shared) (x' : kdump_xlat) (d' : Dict)
        (h' : Heap), slotInv s →
      kdump_clone h s x d orig = (some ctx', s', x', d', h') → slotInv s') ∧
    (∀ (h : Heap) (s : kdump_shared) (sz slot : Nat) (s' : kdump_shared) (h' : Heap),
      wfLens s → slotInv s →
      per_ctx_alloc h s sz = (Except.ok slot, s', h') → slotInv s') ∧
    (∀ (h : Heap) (s : kdump_shared) (slot : Nat), slotInv s →
      slotInv (per_ctx_free h s slot).1) := by
  refine ⟨?_, ?_, ?_, ?_⟩
  · intro h n ctx sh d x h' hrun
    obtain ⟨-, hsh, -, -, -⟩ := kdump_new_some hrun
    subst hsh
    intro j hj i hi hnz
    exact absurd (list_getD_replicate n i 0) hnz
  · intro h s x d orig ctx' s' x' d' h' hinv hrun
    obtain ⟨data', hctx', hs', -, -, hcs⟩ := kdump_clone_some hrun
    obtain ⟨-, -, -, -, hmain, -⟩ := cloneSlots_some s.per_ctx_size _ _ 0 data' h'
      (by simp) hcs
    subst hs'
    intro j hj i hi hnz
    cases j with
    | zero =>
      simp only [List.getD_cons_zero]
      subst hctx'
      simp only
      obtain ⟨-, hnzpart⟩ := hmain i hi
      obtain ⟨p, hp1, -, -⟩ := hnzpart hnz
      rw [show data'.getD i none = some p by simpa using hp1]
      rfl
    | succ j' =>
      simp only [List.getD_cons_succ]
      exact hinv j' (by simpa using hj) i hi hnz
  · intro h s sz slot s' h' hlens hinv hrun
    cases hff : firstFreeSlot s.per_ctx_size with
    | none =>
      rw [show per_ctx_alloc h s sz = (Except.error AllocErr.eagain, s, h) by
        simp [per_ctx_alloc, hff]] at hrun
      have := congrArg Prod.fst hrun
      simp at this
    | some slot0 =>
      obtain ⟨hslt, hsl0, -⟩ := firstFreeSlot_some_spec s.per_ctx_size slot0 hff
      cases hal : allocLoop sz slot0 h s.ctxs with
      | mk b rest =>
        obtain ⟨ctxs', h''⟩ := rest
        cases b with
        | false =>
          rw [show per_ctx_alloc h s sz =
              (Except.error AllocErr.enomem,
               { s with per_ctx_size := (s.per_ctx_size.set slot0 sz).set slot0 0,
                        ctxs := ctxs' },
               h'') by simp [per_ctx_alloc, hff, hal]] at hrun
          have := congrArg Prod.fst hrun
          simp at this
        | true =>
          rw [show per_ctx_alloc h s sz =
              (Except.ok slot0,
               { s with per_ctx_size := s.per_ctx_size.set slot0 sz, ctxs := ctxs' },
               h'') by simp [per_ctx_alloc, hff, hal]] at hrun
          obtain ⟨he, hs', -⟩ :
              Except.ok slot0 = (Except.ok slot : Except AllocErr Nat) ∧
              ({ s with per_ctx_size := s.per_ctx_size.set slot0 sz,
                        ctxs := ctxs' } : kdump_shared) = s' ∧ h'' = h' := by
            have h1 := congrArg Prod.fst hrun
            have h2 := congrArg (fun t => t.2.1) hrun
            have h3 := congrArg (fun t => t.2.2) hrun
            exact ⟨h1, h2, h3⟩
          obtain ⟨hstamp, -, -, -, -⟩ := allocLoop_true_eq sz slot0 s.ctxs h ctxs' h'' hal
          rw [← hs']
          intro j hj i hi hnz
          simp only at hj hi hnz ⊢
          have hjlen : j < s.ctxs.length := by
            rw [hstamp, stamp_length] at hj
            exact hj
          have hdlen : (s.ctxs.getD j default).data.length = s.per_ctx_size.length :=
            hlens (s.ctxs.getD j default) (list_getD_mem s.ctxs j default hjlen)
          rw [hstamp, stamp_getD slot0 s.ctxs h.next j hjlen]
          simp only
          by_cases hieq : i = slot0
          · subst hieq
            rw [list_getD_set_eq _ _ _ _ (by omega)]
            rfl
          · rw [list_getD_set_ne _ _ _ _ _ (fun e => hieq e.symm)]
            refine hinv j hjlen i (by simpa [List.length_set] using hi) ?_
            rw [list_getD_set_ne _ _ _ _ _ (fun e => hieq e.symm)] at hnz
            exact hnz
  · intro h s slot hinv j hj i hi hnz
    simp only [per_ctx_free] at hj hi hnz ⊢
    by_cases hieq : i = slot
    · subst hieq
      exact absurd (list_getD_set_same_default s.per_ctx_size i 0) hnz
    · rw [list_getD_set_ne _ _ _ _ _ (fun e => hieq e.symm)] at hnz
      refine hinv j hj i (by simpa [List.length_set] using hi) hnz

/-- Witness for C3's amended theorem: freeing slot 0 of `shUsed`
preserves the invariant. -/
theorem slotInv_preserved_witness : slotInv (per_ctx_free heapUsed shUsed 0).1 :=
  (slotInv_preserved.2.2.2) heapUsed shUsed 0 (by decide)

/-- Counterexample to C3 as stated: run `kdump_new`, then a successful
`per_ctx_alloc` of size 8 (slot 0), then `per_ctx_free` of slot 0.  All
three operations succeed, yet afterwards the attached context holds a
non-null (dangling) pointer at index 0 although the table entry at index
0 is zero — so contexts do not hold buffers at "exactly" the nonzero
indices. -/
theorem slotInv_counterexample :
    (kdump_new heapT 1).1 =
      some (⟨20, 21, [none]⟩, ⟨22, 1, [0], [⟨20, 21, [none]⟩]⟩, ⟨23, 1⟩,
            ⟨24, 1, [20]⟩) ∧
    (per_ctx_alloc (kdump_new heapT 1).2 ⟨22, 1, [0], [⟨20, 21, [none]⟩]⟩ 8).1 =
      Except.ok 0 ∧
    runNewAllocFree.1.per_ctx_size.getD 0 0 = 0 ∧
    ((runNewAllocFree.1.ctxs.getD 0 default).data.getD 0 none).isSome = true := by
  refine ⟨rfl, rfl, ?_, ?_⟩
  · decide
  · decide

/-! ## C2: the reference-count invariant -/

lemma regRun_inv : ∀ (ops : List RegOp) (st : RegSt),
    regInv st → validRun st ops = true → regInv (regRun st ops) := by
  intro ops
  induction ops with
  | nil => intro st hi _; exact hi
  | cons op ops ih =>
    intro st hi hv
    simp only [validRun, Bool.and_eq_true] at hv
    have := ih (regStep st op) (regStep_inv st op hv.1 hi) hv.2
    simpa [regRun, List.foldl_cons] using this

/-- C2: starting from a successful `kdump_new` and running any valid
sequence of clones, explicit acquires, explicit releases and context
destructions, the registry's reference count always equals the number of
contexts attached to its list plus the outstanding explicit acquires;
in particular it is never zero while any context is still attached (the
registry is destroyed, and its state ceases to exist, exactly when the
count reaches zero). -/
theorem kdump_shared_refcount_invariant (h : Heap) (n : Nat) (ctx : kdump_ctx_t)
    (sh : kdump_shared) (d : Dict) (x : kdump_xlat) (h' : Heap)
    (hnew : kdump_new h n = (some (ctx, sh, d, x), h'))
    (ops : List RegOp)
    (hval : validRun ⟨h', some sh, x, d, 0⟩ ops = true) :
    (∀ s, (regRun ⟨h', some sh, x, d, 0⟩ ops).sh = some s →
      s.refcnt = s.ctxs.length + (regRun ⟨h', some sh, x, d, 0⟩ ops).ext) ∧
    (∀ s, (regRun ⟨h', some sh, x, d, 0⟩ ops).sh = some s → s.ctxs ≠ [] →
      0 < s.refcnt) := by
  obtain ⟨-, hsh, -, -, -⟩ := kdump_new_some hnew
  have hinv0 : regInv ⟨h', some sh, x, d, 0⟩ := by
    intro s hs
    simp only [Option.some.injEq] at hs
    subst hs
    subst hsh
    exact ⟨by simp, by simp⟩
  have hrun := regRun_inv ops ⟨h', some sh, x, d, 0⟩ hinv0 hval
  exact ⟨fun s hs => (hrun s hs).1, fun s hs _ => (hrun s hs).2⟩

/-- Witness for C2: running `opsW` from the state after `kdump_new`
ends with the registry alive at reference count 1 = 1 attached context
+ 0 outstanding acquires. -/
theorem kdump_shared_refcount_invariant_witness :
    (regRun stW opsW).sh = some ⟨22, 1, [0], [⟨20, 21, [none]⟩]⟩ ∧
    (22 : Nat) = 22 ∧
    (⟨22, 1, [0], [⟨20, 21, [none]⟩]⟩ : kdump_shared).refcnt =
      (⟨22, 1, [0], [⟨20, 21, [none]⟩]⟩ : kdump_shared).ctxs.length +
        (regRun stW opsW).ext := by
  refine ⟨by decide, rfl, ?_⟩
  exact (kdump_shared_refcount_invariant heapT 1 ⟨20, 21, [none]⟩
    ⟨22, 1, [0], [⟨20, 21, [none]⟩]⟩ ⟨23, 1⟩ ⟨24, 1, [20]⟩
    (kdump_new heapT 1).2 rfl opsW (by decide)).1
    ⟨22, 1, [0], [⟨20, 21, [none]⟩]⟩ (by decide)
